import Mathlib

/-!
Verification of the `guid` matching engine in `src/orderbook/src/guid/`:
`domain.rs` (data types), `validation.rs` (intent validator) and
`orderbook.rs` (matcher / orderbook).  Uuids are modelled as `Nat`
(the nil uuid is `0`), timestamps as `Nat`, assets as `Nat`, and the
arbitrary-precision decimals (`BigDecimal`) as `Rat`, which supports the
exact comparison and subtraction the match path uses.  `SystemTime::now()`
is modelled by an explicit `now : Nat` argument.
-/

namespace Paper

/-- `OrderSide` from `domain.rs`. -/
inductive OrderSide where
  | Bid
  | Ask
deriving DecidableEq, Repr

/-- `OrderType` from `domain.rs`. -/
inductive OrderType where
  | Market
  | Limit
deriving DecidableEq, Repr

/-- `Order<Asset>` from `domain.rs`. -/
structure Order where
  order_id : Nat
  order_asset : Nat
  price_asset : Nat
  side : OrderSide
  price : Rat
  qty : Rat
deriving DecidableEq, Repr

/-- `OrderRequest<Asset>` from `orders.rs`. -/
inductive OrderRequest where
  | NewMarketOrder (order_id : Nat) (order_asset price_asset : Nat)
      (side : OrderSide) (qty : Rat) (ts : Nat)
  | NewLimitOrder (order_id : Nat) (order_asset price_asset : Nat)
      (side : OrderSide) (price : Rat) (qty : Rat) (ts : Nat)
  | AmendOrder (id : Nat) (side : OrderSide) (price : Rat) (qty : Rat) (ts : Nat)
  | CancelOrder (id : Nat) (side : OrderSide)
deriving DecidableEq, Repr

/-- `Success<Asset>` from `orderbook.rs`. -/
inductive Success where
  | Accepted (order_id : Nat) (order_asset : Nat) (order_type : OrderType)
      (price_asset : Nat) (price : Option Rat) (qty : Rat) (side : OrderSide) (ts : Nat)
  | Filled (order_id : Nat) (side : OrderSide) (order_type : OrderType)
      (price : Rat) (qty : Rat) (ts : Nat)
  | PartiallyFilled (order_id : Nat) (side : OrderSide) (order_type : OrderType)
      (price : Rat) (qty : Rat) (ts : Nat)
  | Amended (order_id : Nat) (price : Rat) (qty : Rat) (ts : Nat)
  | Cancelled (order_id : Nat) (ts : Nat)
deriving DecidableEq, Repr

/-- `Failed` from `orderbook.rs`. -/
inductive Failed where
  | ValidationFailed (reason : String)
  | DuplicateOrderID (id : Nat)
  | NoMatch (id : Nat)
  | OrderNotFound (id : Nat)
deriving DecidableEq, Repr

/-- One element of `OrderProcessingResult`: `Result<Success, Failed>`. -/
abbrev EvResult := Except Failed Success

/-- `OrderProcessingResult<Asset>` from `orderbook.rs`: `Vec<Result<Success, Failed>>`. -/
abbrev OrderProcessingResult := List EvResult

/-! ## The order queue

Modelled from the spec: the file `order_queues.rs` (the `OrderQueue` struct
used by `orderbook.rs`) is declared in `mod.rs` but is not part of the
sources; §4.1 of the specification gives its contract.  The spec's queue
keeps an id→Order map, an id→(price, ts) priority map and a heap of
(id, price, ts) entries with lazy tombstones and bounded rebuild; every
call site in `orderbook.rs` passes `id = order.order_id` and
`price = order.price`, so the model stores each live order together with
its timestamp, in insertion order.  `peek`/`pop` select the entry that is
best under the side's (price, ts) comparator, with ties resolved in
insertion order (stable), exactly as §4.1 prescribes; `cancel` and `amend`
remove or replace their entry eagerly, which realizes the contract of the
lazy stall/rebuild machinery (stalled heap entries are never observable
through the contract operations). -/
structure QEntry where
  order : Order
  ts : Nat
deriving DecidableEq, Repr

/-- Strict priority order on queue entries (§4.1 ordering discipline):
bid side prefers higher price, ask side lower price; equal prices prefer
the earlier timestamp. -/
def entryBetter (side : OrderSide) (e1 e2 : QEntry) : Bool :=
  match side with
  | OrderSide.Bid =>
      decide (e2.order.price < e1.order.price ∨
        (e1.order.price = e2.order.price ∧ e1.ts < e2.ts))
  | OrderSide.Ask =>
      decide (e1.order.price < e2.order.price ∨
        (e1.order.price = e2.order.price ∧ e1.ts < e2.ts))

/-- Index of the best-priority entry of the list, preferring the earliest
entry on priority ties (stable insertion order). -/
def bestIdx (side : OrderSide) : List QEntry → Option Nat
  | [] => none
  | e :: rest =>
    match bestIdx side rest with
    | none => some 0
    | some j =>
      match rest[j]? with
      | none => some 0
      | some bj => if entryBetter side bj e then some (j + 1) else some 0

/-- One side of the book. -/
structure OrderQueue where
  side : OrderSide
  entries : List QEntry
deriving DecidableEq, Repr

namespace OrderQueue

/-- Modelled from the spec: fresh empty queue (`OrderQueue::new`); the
stall budget and capacity hint have no observable effect on the contract. -/
def new (side : OrderSide) : OrderQueue := ⟨side, []⟩

/-- Modelled from the spec: `peek()` returns a snapshot of the best-priority
live entry, or none. -/
def peekEntry (q : OrderQueue) : Option QEntry :=
  match bestIdx q.side q.entries with
  | none => none
  | some i => q.entries[i]?

/-- `peek()` as the orderbook uses it: the best live `Order`. -/
def peek (q : OrderQueue) : Option Order :=
  (q.peekEntry).map (fun e => e.order)

/-- Modelled from the spec: the state change of `pop()` — the best-priority
entry is removed (the orderbook ignores `pop`'s return value). -/
def popQ (q : OrderQueue) : OrderQueue :=
  match bestIdx q.side q.entries with
  | none => q
  | some i => ⟨q.side, q.entries.eraseIdx i⟩

/-- Whether an id is live in the queue. -/
def isLive (q : OrderQueue) (id : Nat) : Bool :=
  q.entries.any (fun e => e.order.order_id == id)

/-- Modelled from the spec: `insert(id, price, ts, order) → bool` fails on a
live id, otherwise adds the order; `id` and `price` are taken from the
order record, as at every call site in `orderbook.rs`. -/
def insert (q : OrderQueue) (order : Order) (ts : Nat) : Bool × OrderQueue :=
  if q.isLive order.order_id then (false, q)
  else (true, ⟨q.side, q.entries ++ [⟨order, ts⟩]⟩)

/-- Modelled from the spec: `cancel(id) → bool` removes a live order by id,
returns false when the id is not live. -/
def cancel (q : OrderQueue) (id : Nat) : Bool × OrderQueue :=
  if q.isLive id then
    (true, ⟨q.side, q.entries.filter (fun e => !(e.order.order_id == id))⟩)
  else (false, q)

/-- Modelled from the spec: `amend(id, new_price, new_ts, new_order) → bool`
replaces a live order and refreshes its priority (the fresh heap push is the
newest entry, hence the append); `new_price` is `order.price`, as at the
call site in `orderbook.rs`. -/
def amend (q : OrderQueue) (id : Nat) (ts : Nat) (order : Order) :
    Bool × OrderQueue :=
  if q.isLive id then
    (true, ⟨q.side, (q.entries.filter (fun e => !(e.order.order_id == id))) ++ [⟨order, ts⟩]⟩)
  else (false, q)

/-- Modelled from the spec: `modify_current_order(order)` replaces the
top-of-book order in place, preserving its priority; a no-op when the
supplied order's id does not match the current top. -/
def modify_current_order (q : OrderQueue) (order : Order) : OrderQueue :=
  match bestIdx q.side q.entries with
  | none => q
  | some i =>
    match q.entries[i]? with
    | none => q
    | some e =>
      if e.order.order_id = order.order_id then
        ⟨q.side, q.entries.set i ⟨order, e.ts⟩⟩
      else q

end OrderQueue

/-! ## The validator (`validation.rs`) -/

def ERR_BAD_ORDER_ASSET : String := "bad order asset"
def ERR_BAD_PRICE_ASSET : String := "bad price asset"
def ERR_BAD_PRICE_VALUE : String := "price must be non-negative"
def ERR_BAD_QUANTITY_VALUE : String := "quantity must be non-negative"
def ERR_BAD_ORDER_ID : String := "order ID invalid"

/-- The nil uuid (`Uuid::nil()`), modelled as `0`. -/
def nilId : Nat := 0

/-- `OrderRequestValidator` state: the orderbook's asset pair. -/
structure OrderRequestValidator where
  orderbook_order_asset : Nat
  orderbook_price_asset : Nat
deriving DecidableEq, Repr

namespace OrderRequestValidator

/-- `validate_market` from `validation.rs`. -/
def validate_market (v : OrderRequestValidator) (order_asset price_asset : Nat)
    (qty : Rat) : Except String Unit :=
  if v.orderbook_order_asset ≠ order_asset then Except.error ERR_BAD_ORDER_ASSET
  else if v.orderbook_price_asset ≠ price_asset then Except.error ERR_BAD_PRICE_ASSET
  else if qty ≤ 0 then Except.error ERR_BAD_QUANTITY_VALUE
  else Except.ok ()

/-- `validate_limit` from `validation.rs`. -/
def validate_limit (v : OrderRequestValidator) (order_asset price_asset : Nat)
    (price qty : Rat) : Except String Unit :=
  if v.orderbook_order_asset ≠ order_asset then Except.error ERR_BAD_ORDER_ASSET
  else if v.orderbook_price_asset ≠ price_asset then Except.error ERR_BAD_PRICE_ASSET
  else if price ≤ 0 then Except.error ERR_BAD_PRICE_VALUE
  else if qty ≤ 0 then Except.error ERR_BAD_QUANTITY_VALUE
  else Except.ok ()

/-- `validate_amend` from `validation.rs`. -/
def validate_amend (_v : OrderRequestValidator) (id : Nat) (price qty : Rat) :
    Except String Unit :=
  if id = nilId then Except.error ERR_BAD_ORDER_ID
  else if price ≤ 0 then Except.error ERR_BAD_PRICE_VALUE
  else if qty ≤ 0 then Except.error ERR_BAD_QUANTITY_VALUE
  else Except.ok ()

/-- `validate_cancel` from `validation.rs`. -/
def validate_cancel (_v : OrderRequestValidator) (id : Nat) : Except String Unit :=
  if id = nilId then Except.error ERR_BAD_ORDER_ID
  else Except.ok ()

/-- `validate` from `validation.rs`: dispatch on the request variant. -/
def validate (v : OrderRequestValidator) (request : OrderRequest) :
    Except String Unit :=
  match request with
  | OrderRequest.NewMarketOrder _ order_asset price_asset _ qty _ =>
      v.validate_market order_asset price_asset qty
  | OrderRequest.NewLimitOrder _ order_asset price_asset _ price qty _ =>
      v.validate_limit order_asset price_asset price qty
  | OrderRequest.AmendOrder id _ price qty _ =>
      v.validate_amend id price qty
  | OrderRequest.CancelOrder id _ =>
      v.validate_cancel id

end OrderRequestValidator

/-! ## The orderbook (`orderbook.rs`) -/

/-- `Orderbook<Asset>` from `orderbook.rs`.  The validator it owns is
determined by the asset pair, see `Orderbook.validator`. -/
structure Orderbook where
  order_asset : Nat
  price_asset : Nat
  bid_queue : OrderQueue
  ask_queue : OrderQueue
deriving DecidableEq, Repr

namespace Orderbook

/-- `Orderbook::new`. -/
def new (order_asset price_asset : Nat) : Orderbook :=
  ⟨order_asset, price_asset, OrderQueue.new OrderSide.Bid, OrderQueue.new OrderSide.Ask⟩

/-- The `order_validator` field of `Orderbook::new`. -/
def validator (b : Orderbook) : OrderRequestValidator :=
  ⟨b.order_asset, b.price_asset⟩

end Orderbook

/-- The opposite-side queue selected by `match side` in the processing
functions (`Bid → ask_queue`, `Ask → bid_queue`). -/
def oppQueue (b : Orderbook) (side : OrderSide) : OrderQueue :=
  match side with
  | OrderSide.Bid => b.ask_queue
  | OrderSide.Ask => b.bid_queue

/-- Write back the opposite-side queue. -/
def setOpp (b : Orderbook) (side : OrderSide) (q : OrderQueue) : Orderbook :=
  match side with
  | OrderSide.Bid => { b with ask_queue := q }
  | OrderSide.Ask => { b with bid_queue := q }

/-- The own-side queue selected by `match side` in `store_new_limit_order`,
`process_order_amend` and `process_order_cancel` (`Bid → bid_queue`). -/
def ownQueue (b : Orderbook) (side : OrderSide) : OrderQueue :=
  match side with
  | OrderSide.Bid => b.bid_queue
  | OrderSide.Ask => b.ask_queue

/-- Write back the own-side queue. -/
def setOwn (b : Orderbook) (side : OrderSide) (q : OrderQueue) : Orderbook :=
  match side with
  | OrderSide.Bid => { b with bid_queue := q }
  | OrderSide.Ask => { b with ask_queue := q }

/-- Result of one `order_matching` step: the mutated book, the extended
result vector, and the returned completeness flag. -/
structure MatchStep where
  book : Orderbook
  results : OrderProcessingResult
  complete : Bool

/-- `Orderbook::order_matching` (orderbook.rs lines 462–583): the three-case
matching step against the peeked opposite order. -/
def order_matching (book : Orderbook) (results : OrderProcessingResult)
    (opposite_order : Order) (order_id order_asset price_asset : Nat)
    (order_type : OrderType) (side : OrderSide) (qty : Rat) (now : Nat) :
    MatchStep :=
  if qty < opposite_order.qty then
    -- fill new order and modify opposite limit
    let results := results ++
      [Except.ok (Success.Filled order_id side order_type
          opposite_order.price qty now),
       Except.ok (Success.PartiallyFilled opposite_order.order_id
          opposite_order.side OrderType.Limit opposite_order.price qty now)]
    let book := setOpp book side ((oppQueue book side).modify_current_order
      ⟨opposite_order.order_id, order_asset, price_asset, opposite_order.side,
        opposite_order.price, opposite_order.qty - qty⟩)
    ⟨book, results, true⟩
  else if opposite_order.qty < qty then
    -- partially fill new order, fill opposite limit, matching incomplete
    let results := results ++
      [Except.ok (Success.PartiallyFilled order_id side order_type
          opposite_order.price opposite_order.qty now),
       Except.ok (Success.Filled opposite_order.order_id opposite_order.side
          OrderType.Limit opposite_order.price opposite_order.qty now)]
    let book := setOpp book side ((oppQueue book side).popQ)
    ⟨book, results, false⟩
  else
    -- orders exactly match: fill both and remove old limit
    let results := results ++
      [Except.ok (Success.Filled order_id side order_type
          opposite_order.price qty now),
       Except.ok (Success.Filled opposite_order.order_id opposite_order.side
          OrderType.Limit opposite_order.price qty now)]
    let book := setOpp book side ((oppQueue book side).popQ)
    ⟨book, results, true⟩

/-- `Orderbook::store_new_limit_order`. -/
def store_new_limit_order (book : Orderbook) (results : OrderProcessingResult)
    (order_id order_asset price_asset : Nat) (side : OrderSide)
    (price qty : Rat) (ts : Nat) : Orderbook × OrderProcessingResult :=
  let ins := (ownQueue book side).insert
    ⟨order_id, order_asset, price_asset, side, price, qty⟩ ts
  let book := setOwn book side ins.2
  if ins.1 then (book, results)
  else (book, results ++ [Except.error (Failed.DuplicateOrderID order_id)])

lemma oppQueue_setOpp (b : Orderbook) (side : OrderSide) (q : OrderQueue) :
    oppQueue (setOpp b side q) side = q := by
  cases side <;> rfl

lemma peekEntry_getElem (q : OrderQueue) (e : QEntry)
    (h : q.peekEntry = some e) :
    ∃ i, bestIdx q.side q.entries = some i ∧ q.entries[i]? = some e := by
  unfold OrderQueue.peekEntry at h
  cases hb : bestIdx q.side q.entries with
  | none => rw [hb] at h; exact absurd h (by simp)
  | some i => rw [hb] at h; exact ⟨i, rfl, h⟩

lemma length_popQ_lt (q : OrderQueue) (e : QEntry) (h : q.peekEntry = some e) :
    q.popQ.entries.length < q.entries.length := by
  obtain ⟨i, hb, hg⟩ := peekEntry_getElem q e h
  have hi : i < q.entries.length := by
    rcases List.getElem?_eq_some.mp hg with ⟨h', _⟩
    exact h'
  unfold OrderQueue.popQ
  rw [hb]
  simp only [List.length_eraseIdx, hi, if_pos]
  omega

lemma order_matching_book_of_not_complete (book : Orderbook)
    (results : OrderProcessingResult) (opposite_order : Order)
    (order_id order_asset price_asset : Nat) (order_type : OrderType)
    (side : OrderSide) (qty : Rat) (now : Nat)
    (h : (order_matching book results opposite_order order_id order_asset
      price_asset order_type side qty now).complete = false) :
    (order_matching book results opposite_order order_id order_asset
      price_asset order_type side qty now).book =
      setOpp book side ((oppQueue book side).popQ) := by
  unfold order_matching at h ⊢
  by_cases h1 : qty < opposite_order.qty
  · simp [h1] at h
  · by_cases h2 : opposite_order.qty < qty
    · simp [h1, h2]
    · simp [h1, h2] at h

/-- `Orderbook::process_market_order`: recursive matching of a market order
against the opposite queue; the recursion terminates because every
incomplete matching step pops the opposite queue. -/
def process_market_order (book : Orderbook) (results : OrderProcessingResult)
    (order_id order_asset price_asset : Nat) (side : OrderSide) (qty : Rat)
    (now : Nat) : Orderbook × OrderProcessingResult :=
  match hpk : (oppQueue book side).peekEntry with
  | some opp =>
    let step := order_matching book results opp.order order_id order_asset
      price_asset OrderType.Market side qty now
    if hc : step.complete then (step.book, step.results)
    else
      process_market_order step.book step.results order_id order_asset
        price_asset side (qty - opp.order.qty) now
  | none => (book, results ++ [Except.error (Failed.NoMatch order_id)])
termination_by (oppQueue book side).entries.length
decreasing_by
  have hbook := order_matching_book_of_not_complete book results opp.order
    order_id order_asset price_asset OrderType.Market side qty now
    (by simpa using hc)
  rw [hbook, oppQueue_setOpp]
  exact length_popQ_lt _ _ hpk

/-- The `could_be_matched` bid/ask price-overlap test of
`Orderbook::process_limit_order`: for a bid, incoming price ≥ opposite best
price; for an ask, incoming price ≤ opposite best price. -/
def limitOverlap (side : OrderSide) (oppositePrice price : Rat) : Bool :=
  match side with
  | OrderSide.Bid => decide (oppositePrice ≤ price)
  | OrderSide.Ask => decide (price ≤ oppositePrice)

/-- `Orderbook::process_limit_order`: match while the incoming price overlaps
the opposite best, else store the (residual) order on the own side. -/
def process_limit_order (book : Orderbook) (results : OrderProcessingResult)
    (order_id order_asset price_asset : Nat) (side : OrderSide)
    (price qty : Rat) (ts : Nat) (now : Nat) :
    Orderbook × OrderProcessingResult :=
  match hpk : (oppQueue book side).peekEntry with
  | some opp =>
    if limitOverlap side opp.order.price price then
      let step := order_matching book results opp.order order_id order_asset
        price_asset OrderType.Limit side qty now
      if hc : step.complete then (step.book, step.results)
      else
        process_limit_order step.book step.results order_id order_asset
          price_asset side price (qty - opp.order.qty) ts now
    else
      store_new_limit_order book results order_id order_asset price_asset
        side price qty ts
  | none =>
    store_new_limit_order book results order_id order_asset price_asset
      side price qty ts
termination_by (oppQueue book side).entries.length
decreasing_by
  have hbook := order_matching_book_of_not_complete book results opp.order
    order_id order_asset price_asset OrderType.Limit side qty now
    (by simpa using hc)
  rw [hbook, oppQueue_setOpp]
  exact length_popQ_lt _ _ hpk

/-- `Orderbook::process_order_amend`. -/
def process_order_amend (book : Orderbook) (results : OrderProcessingResult)
    (order_id : Nat) (side : OrderSide) (price qty : Rat) (ts : Nat)
    (now : Nat) : Orderbook × OrderProcessingResult :=
  let am := (ownQueue book side).amend order_id ts
    ⟨order_id, book.order_asset, book.price_asset, side, price, qty⟩
  let book := setOwn book side am.2
  if am.1 then
    (book, results ++ [Except.ok (Success.Amended order_id price qty now)])
  else (book, results ++ [Except.error (Failed.OrderNotFound order_id)])

/-- `Orderbook::process_order_cancel`. -/
def process_order_cancel (book : Orderbook) (results : OrderProcessingResult)
    (order_id : Nat) (side : OrderSide) (now : Nat) :
    Orderbook × OrderProcessingResult :=
  let cn := (ownQueue book side).cancel order_id
  let book := setOwn book side cn.2
  if cn.1 then
    (book, results ++ [Except.ok (Success.Cancelled order_id now)])
  else (book, results ++ [Except.error (Failed.OrderNotFound order_id)])

/-- `Orderbook::process_order`: validate, then dispatch by intent variant;
returns the mutated book and the accumulated result vector. -/
def process_order (book : Orderbook) (order : OrderRequest) (now : Nat) :
    Orderbook × OrderProcessingResult :=
  match book.validator.validate order with
  | Except.error reason =>
      (book, [Except.error (Failed.ValidationFailed reason)])
  | Except.ok _ =>
    match order with
    | OrderRequest.NewMarketOrder order_id order_asset price_asset side qty _ts =>
      let results : OrderProcessingResult :=
        [Except.ok (Success.Accepted order_id order_asset OrderType.Market
          price_asset none qty side now)]
      process_market_order book results order_id order_asset price_asset
        side qty now
    | OrderRequest.NewLimitOrder order_id order_asset price_asset side price qty ts =>
      let results : OrderProcessingResult :=
        [Except.ok (Success.Accepted order_id order_asset OrderType.Limit
          price_asset (some price) qty side now)]
      process_limit_order book results order_id order_asset price_asset
        side price qty ts now
    | OrderRequest.AmendOrder id side price qty ts =>
      process_order_amend book [] id side price qty ts now
    | OrderRequest.CancelOrder id side =>
      process_order_cancel book [] id side now

/-- `Orderbook::current_spread`. -/
def current_spread (book : Orderbook) : Option (Rat × Rat) :=
  match book.bid_queue.peek with
  | none => none
  | some bid =>
    match book.ask_queue.peek with
    | none => none
    | some ask => some (bid.price, ask.price)

/-! ## Quantity aggregates used by the conservation claims -/

/-- Total remaining quantity of the entries of a queue side. -/
def qtySum : List QEntry → Rat
  | [] => 0
  | e :: rest => e.order.qty + qtySum rest

/-- Total remaining quantity of both sides of the book. -/
def bookQty (b : Orderbook) : Rat :=
  qtySum b.bid_queue.entries + qtySum b.ask_queue.entries

/-- Quantity reported by the Filled/PartiallyFilled events that carry the
given order id (for a fresh aggressor id, exactly the aggressor-side traded
quantity of the intent). -/
def tradedQty (id : Nat) : OrderProcessingResult → Rat
  | [] => 0
  | Except.ok (Success.Filled oid _ _ _ q _) :: rest =>
      (if oid = id then q else 0) + tradedQty id rest
  | Except.ok (Success.PartiallyFilled oid _ _ _ q _) :: rest =>
      (if oid = id then q else 0) + tradedQty id rest
  | _ :: rest => tradedQty id rest

/-- Remaining quantity of the live order with the given id on one side
(`0` when the id is not live there). -/
def idQty (id : Nat) : List QEntry → Rat
  | [] => 0
  | e :: rest => (if e.order.order_id = id then e.order.qty else 0) + idQty id rest

/-- Remaining live quantity of the given id across both queues. -/
def bookIdQty (b : Orderbook) (id : Nat) : Rat :=
  idQty id b.bid_queue.entries + idQty id b.ask_queue.entries

/-- Whether an event is a trade report (`Filled` or `PartiallyFilled`). -/
def isFillEvent : EvResult → Bool
  | Except.ok (Success.Filled _ _ _ _ _ _) => true
  | Except.ok (Success.PartiallyFilled _ _ _ _ _ _) => true
  | _ => false

/-- The quantity carried by a fill event (`0` otherwise). -/
def fillQty : EvResult → Rat
  | Except.ok (Success.Filled _ _ _ _ q _) => q
  | Except.ok (Success.PartiallyFilled _ _ _ _ q _) => q
  | _ => 0

/-! ## Priority-order lemmas -/

/-- The strict priority order of `entryBetter`, as a proposition. -/
def BetterP (side : OrderSide) (e1 e2 : QEntry) : Prop :=
  match side with
  | OrderSide.Bid => e2.order.price < e1.order.price ∨
      (e1.order.price = e2.order.price ∧ e1.ts < e2.ts)
  | OrderSide.Ask => e1.order.price < e2.order.price ∨
      (e1.order.price = e2.order.price ∧ e1.ts < e2.ts)

lemma entryBetter_iff (side : OrderSide) (e1 e2 : QEntry) :
    entryBetter side e1 e2 = true ↔ BetterP side e1 e2 := by
  cases side <;> simp [entryBetter, BetterP]

lemma betterP_irrefl (side : OrderSide) (e : QEntry) : ¬ BetterP side e e := by
  cases side <;> simp [BetterP]

lemma betterP_asymm (side : OrderSide) (a b : QEntry) (h : BetterP side a b) :
    ¬ BetterP side b a := by
  cases side <;>
    (rcases h with h | ⟨h1, h2⟩ <;> rintro (h' | ⟨h1', h2'⟩) <;> linarith)

lemma betterP_notnot_trans (side : OrderSide) (u v w : QEntry)
    (h1 : ¬ BetterP side u v) (h2 : ¬ BetterP side v w) :
    ¬ BetterP side u w := by
  cases side <;>
  · simp only [BetterP, not_or, not_and, not_lt] at h1 h2 ⊢
    obtain ⟨h1p, h1t⟩ := h1
    obtain ⟨h2p, h2t⟩ := h2
    constructor
    · linarith
    · intro hpw
      have hpv : u.order.price = v.order.price := by linarith
      have hvw : v.order.price = w.order.price := by linarith
      have := h1t hpv
      have := h2t hvw
      omega

/-! ## bestIdx / peek / pop lemmas -/

lemma bestIdx_cons_ne_none (side : OrderSide) (a : QEntry) (rest : List QEntry) :
    bestIdx side (a :: rest) ≠ none := by
  rw [bestIdx]
  rcases hb : bestIdx side rest with _ | j
  · simp
  · rcases hg : rest[j]? with _ | bj
    · simp [hg]
    · simp only [hg]
      split <;> simp

lemma bestIdx_eq_none_iff (side : OrderSide) (l : List QEntry) :
    bestIdx side l = none ↔ l = [] := by
  cases l with
  | nil => simp [bestIdx]
  | cons a rest =>
    constructor
    · intro h; exact absurd h (bestIdx_cons_ne_none side a rest)
    · intro h; cases h

lemma bestIdx_spec (side : OrderSide) (l : List QEntry) (i : Nat)
    (h : bestIdx side l = some i) :
    ∃ e, l[i]? = some e ∧ ∀ e' ∈ l, ¬ BetterP side e' e := by
  induction l generalizing i with
  | nil => simp [bestIdx] at h
  | cons a rest ih =>
    rw [bestIdx] at h
    rcases hb : bestIdx side rest with _ | j <;> simp only [hb] at h
    · simp at h
      subst h
      have hrest : rest = [] := (bestIdx_eq_none_iff side rest).mp hb
      subst hrest
      refine ⟨a, rfl, ?_⟩
      intro e' he'
      have he2 : e' = a := by simpa using he'
      subst he2
      exact betterP_irrefl side e'
    · obtain ⟨bj, hbj, hall⟩ := ih j hb
      simp only [hbj] at h
      by_cases hbet : entryBetter side bj a = true
      · rw [if_pos hbet] at h
        simp at h
        subst h
        refine ⟨bj, by simpa using hbj, ?_⟩
        intro e' he'
        rcases List.mem_cons.mp he' with he' | he'
        · subst he'
          exact betterP_asymm side bj e' ((entryBetter_iff side bj e').mp hbet)
        · exact hall e' he'
      · rw [if_neg hbet] at h
        simp at h
        subst h
        refine ⟨a, by simp, ?_⟩
        intro e' he'
        have hnb : ¬ BetterP side bj a := fun hc => hbet ((entryBetter_iff side bj a).mpr hc)
        rcases List.mem_cons.mp he' with he' | he'
        · subst he'; exact betterP_irrefl side e'
        · exact betterP_notnot_trans side e' bj a (hall e' he') hnb

lemma peekEntry_isSome_of_ne_nil (q : OrderQueue) (h : q.entries ≠ []) :
    ∃ e, q.peekEntry = some e := by
  unfold OrderQueue.peekEntry
  rcases hb : bestIdx q.side q.entries with _ | i
  · exact absurd ((bestIdx_eq_none_iff _ _).mp hb) h
  · obtain ⟨e, hg, _⟩ := bestIdx_spec q.side q.entries i hb
    exact ⟨e, by simp only [hb, hg]⟩

lemma peekEntry_eq_none_iff (q : OrderQueue) :
    q.peekEntry = none ↔ q.entries = [] := by
  constructor
  · intro h
    by_contra hne
    obtain ⟨e, he⟩ := peekEntry_isSome_of_ne_nil q hne
    rw [he] at h
    cases h
  · intro h
    unfold OrderQueue.peekEntry
    rw [(bestIdx_eq_none_iff q.side q.entries).mpr h]

lemma peekEntry_spec (q : OrderQueue) (e : QEntry) (h : q.peekEntry = some e) :
    e ∈ q.entries ∧ ∀ e' ∈ q.entries, ¬ BetterP q.side e' e := by
  obtain ⟨i, hb, hg⟩ := peekEntry_getElem q e h
  obtain ⟨e', hg', hall⟩ := bestIdx_spec q.side q.entries i hb
  rw [hg] at hg'
  obtain rfl : e = e' := by injection hg'
  obtain ⟨hlt, hEq⟩ := List.getElem?_eq_some.mp hg
  exact ⟨hEq ▸ List.getElem_mem hlt, hall⟩

lemma popQ_entries (q : OrderQueue) (e : QEntry) (h : q.peekEntry = some e) :
    ∃ i, bestIdx q.side q.entries = some i ∧ q.entries[i]? = some e ∧
      q.popQ.entries = q.entries.eraseIdx i := by
  obtain ⟨i, hb, hg⟩ := peekEntry_getElem q e h
  refine ⟨i, hb, hg, ?_⟩
  unfold OrderQueue.popQ
  simp only [hb]

lemma popQ_side (q : OrderQueue) : q.popQ.side = q.side := by
  unfold OrderQueue.popQ
  cases hb : bestIdx q.side q.entries with
  | none => rfl
  | some i => simp only [hb]

lemma popQ_sub (q : OrderQueue) : q.popQ.entries ⊆ q.entries := by
  unfold OrderQueue.popQ
  cases hb : bestIdx q.side q.entries with
  | none => exact fun a ha => ha
  | some i =>
    simp only [hb]
    exact List.eraseIdx_subset _ _

lemma modify_entries (q : OrderQueue) (e : QEntry) (o : Order)
    (h : q.peekEntry = some e) (hid : e.order.order_id = o.order_id) :
    ∃ i, bestIdx q.side q.entries = some i ∧ q.entries[i]? = some e ∧
      (q.modify_current_order o).entries = q.entries.set i ⟨o, e.ts⟩ := by
  obtain ⟨i, hb, hg⟩ := peekEntry_getElem q e h
  refine ⟨i, hb, hg, ?_⟩
  unfold OrderQueue.modify_current_order
  simp only [hb, hg]
  rw [if_pos hid]

lemma modify_side (q : OrderQueue) (o : Order) :
    (q.modify_current_order o).side = q.side := by
  unfold OrderQueue.modify_current_order
  cases hb : bestIdx q.side q.entries with
  | none => rfl
  | some i =>
    cases hg : q.entries[i]? with
    | none => simp only [hb, hg]
    | some e =>
      simp only [hb, hg]
      split <;> rfl

lemma modify_mem (q : OrderQueue) (o : Order) (e' : QEntry)
    (h : e' ∈ (q.modify_current_order o).entries) :
    e' ∈ q.entries ∨ e'.order = o := by
  unfold OrderQueue.modify_current_order at h
  cases hb : bestIdx q.side q.entries with
  | none => rw [hb] at h; exact Or.inl h
  | some i =>
    simp only [hb] at h
    cases hg : q.entries[i]? with
    | none => rw [hg] at h; exact Or.inl h
    | some e =>
      simp only [hg] at h
      by_cases hid : e.order.order_id = o.order_id
      · rw [if_pos hid] at h
        rcases List.mem_or_eq_of_mem_set h with h | h
        · exact Or.inl h
        · subst h; exact Or.inr rfl
      · rw [if_neg hid] at h
        exact Or.inl h

lemma isLive_iff (q : OrderQueue) (id : Nat) :
    q.isLive id = true ↔ ∃ e ∈ q.entries, e.order.order_id = id := by
  simp [OrderQueue.isLive, List.any_eq_true]

/-! ## Sum lemmas -/

lemma qtySum_append (l1 l2 : List QEntry) :
    qtySum (l1 ++ l2) = qtySum l1 + qtySum l2 := by
  induction l1 with
  | nil => simp [qtySum]
  | cons a rest ih => simp [qtySum, ih]; ring

lemma qtySum_eraseIdx (l : List QEntry) (i : Nat) (e : QEntry)
    (h : l[i]? = some e) :
    qtySum (l.eraseIdx i) = qtySum l - e.order.qty := by
  induction l generalizing i with
  | nil => simp at h
  | cons a rest ih =>
    cases i with
    | zero =>
      simp at h
      subst h
      simp [qtySum, List.eraseIdx]
    | succ i =>
      simp at h
      rw [List.eraseIdx_cons_succ]
      simp only [qtySum]
      rw [ih i h]
      ring

lemma qtySum_set (l : List QEntry) (i : Nat) (e x : QEntry)
    (h : l[i]? = some e) :
    qtySum (l.set i x) = qtySum l - e.order.qty + x.order.qty := by
  induction l generalizing i with
  | nil => simp at h
  | cons a rest ih =>
    cases i with
    | zero =>
      simp at h
      subst h
      simp [qtySum]
      ring
    | succ i =>
      simp at h
      rw [List.set_cons_succ]
      simp only [qtySum]
      rw [ih i h]
      ring

lemma idQty_append (id : Nat) (l1 l2 : List QEntry) :
    idQty id (l1 ++ l2) = idQty id l1 + idQty id l2 := by
  induction l1 with
  | nil => simp [idQty]
  | cons a rest ih => simp [idQty, ih]; ring

lemma idQty_eq_zero (id : Nat) (l : List QEntry)
    (h : ∀ e ∈ l, e.order.order_id ≠ id) : idQty id l = 0 := by
  induction l with
  | nil => rfl
  | cons a rest ih =>
    simp only [idQty]
    rw [if_neg (h a (by simp)), ih (fun e he => h e (by simp [he]))]
    ring

lemma tradedQty_append (id : Nat) (l1 l2 : OrderProcessingResult) :
    tradedQty id (l1 ++ l2) = tradedQty id l1 + tradedQty id l2 := by
  induction l1 with
  | nil => simp [tradedQty]
  | cons a rest ih =>
    match a with
    | Except.ok (Success.Filled oid s t p q ts) =>
        simp only [List.cons_append, tradedQty, List.append_eq]; rw [ih]; ring
    | Except.ok (Success.PartiallyFilled oid s t p q ts) =>
        simp only [List.cons_append, tradedQty, List.append_eq]; rw [ih]; ring
    | Except.ok (Success.Accepted a1 a2 a3 a4 a5 a6 a7 a8) =>
        simp only [List.cons_append, tradedQty, List.append_eq]; rw [ih]
    | Except.ok (Success.Amended a1 a2 a3 a4) =>
        simp only [List.cons_append, tradedQty, List.append_eq]; rw [ih]
    | Except.ok (Success.Cancelled a1 a2) =>
        simp only [List.cons_append, tradedQty, List.append_eq]; rw [ih]
    | Except.error f =>
        simp only [List.cons_append, tradedQty, List.append_eq]; rw [ih]

/-! ## Book plumbing lemmas -/

lemma setOpp_own (b : Orderbook) (side : OrderSide) (q : OrderQueue) :
    ownQueue (setOpp b side q) side = ownQueue b side := by
  cases side <;> rfl

lemma setOwn_opp (b : Orderbook) (side : OrderSide) (q : OrderQueue) :
    oppQueue (setOwn b side q) side = oppQueue b side := by
  cases side <;> rfl

lemma setOwn_own (b : Orderbook) (side : OrderSide) (q : OrderQueue) :
    ownQueue (setOwn b side q) side = q := by
  cases side <;> rfl

lemma setOwn_self (b : Orderbook) (side : OrderSide) :
    setOwn b side (ownQueue b side) = b := by
  cases side <;> rfl

lemma setOpp_bid_ask (b : Orderbook) (side : OrderSide) (q : OrderQueue) :
    ((setOpp b side q).bid_queue = b.bid_queue ∧ (setOpp b side q).ask_queue = q) ∨
    ((setOpp b side q).bid_queue = q ∧ (setOpp b side q).ask_queue = b.ask_queue) := by
  cases side
  · exact Or.inl ⟨rfl, rfl⟩
  · exact Or.inr ⟨rfl, rfl⟩

lemma setOwn_bid_ask (b : Orderbook) (side : OrderSide) (q : OrderQueue) :
    ((setOwn b side q).bid_queue = q ∧ (setOwn b side q).ask_queue = b.ask_queue) ∨
    ((setOwn b side q).bid_queue = b.bid_queue ∧ (setOwn b side q).ask_queue = q) := by
  cases side
  · exact Or.inl ⟨rfl, rfl⟩
  · exact Or.inr ⟨rfl, rfl⟩

/-! ## order_matching case lemmas -/

lemma order_matching_case_lt (book : Orderbook) (results : OrderProcessingResult)
    (O : Order) (order_id oa pa : Nat) (t : OrderType) (side : OrderSide)
    (qty : Rat) (now : Nat) (h : qty < O.qty) :
    order_matching book results O order_id oa pa t side qty now =
      ⟨setOpp book side ((oppQueue book side).modify_current_order
        ⟨O.order_id, oa, pa, O.side, O.price, O.qty - qty⟩),
       results ++ [Except.ok (Success.Filled order_id side t O.price qty now),
         Except.ok (Success.PartiallyFilled O.order_id O.side OrderType.Limit
           O.price qty now)],
       true⟩ := by
  unfold order_matching
  rw [if_pos h]

lemma order_matching_case_gt (book : Orderbook) (results : OrderProcessingResult)
    (O : Order) (order_id oa pa : Nat) (t : OrderType) (side : OrderSide)
    (qty : Rat) (now : Nat) (h : O.qty < qty) :
    order_matching book results O order_id oa pa t side qty now =
      ⟨setOpp book side ((oppQueue book side).popQ),
       results ++ [Except.ok (Success.PartiallyFilled order_id side t O.price O.qty now),
         Except.ok (Success.Filled O.order_id O.side OrderType.Limit O.price O.qty now)],
       false⟩ := by
  unfold order_matching
  rw [if_neg (by linarith), if_pos h]

lemma order_matching_case_eq (book : Orderbook) (results : OrderProcessingResult)
    (O : Order) (order_id oa pa : Nat) (t : OrderType) (side : OrderSide)
    (qty : Rat) (now : Nat) (h1 : ¬ qty < O.qty) (h2 : ¬ O.qty < qty) :
    order_matching book results O order_id oa pa t side qty now =
      ⟨setOpp book side ((oppQueue book side).popQ),
       results ++ [Except.ok (Success.Filled order_id side t O.price qty now),
         Except.ok (Success.Filled O.order_id O.side OrderType.Limit O.price qty now)],
       true⟩ := by
  unfold order_matching
  rw [if_neg h1, if_neg h2]

lemma order_matching_own (book : Orderbook) (results : OrderProcessingResult)
    (O : Order) (order_id oa pa : Nat) (t : OrderType) (side : OrderSide)
    (qty : Rat) (now : Nat) :
    ownQueue (order_matching book results O order_id oa pa t side qty now).book side
      = ownQueue book side := by
  unfold order_matching
  split_ifs <;> cases side <;> rfl

/-! ## store / process unfolding lemmas -/

lemma store_new_limit_order_fresh (book : Orderbook)
    (results : OrderProcessingResult) (order_id oa pa : Nat) (side : OrderSide)
    (price qty : Rat) (ts : Nat)
    (h : (ownQueue book side).isLive order_id = false) :
    store_new_limit_order book results order_id oa pa side price qty ts =
      (setOwn book side ⟨(ownQueue book side).side,
        (ownQueue book side).entries ++ [⟨⟨order_id, oa, pa, side, price, qty⟩, ts⟩]⟩,
       results) := by
  unfold store_new_limit_order OrderQueue.insert
  rw [h]
  simp

lemma store_new_limit_order_dup (book : Orderbook)
    (results : OrderProcessingResult) (order_id oa pa : Nat) (side : OrderSide)
    (price qty : Rat) (ts : Nat)
    (h : (ownQueue book side).isLive order_id = true) :
    store_new_limit_order book results order_id oa pa side price qty ts =
      (book, results ++ [Except.error (Failed.DuplicateOrderID order_id)]) := by
  unfold store_new_limit_order OrderQueue.insert
  rw [h]
  simp [setOwn_self]

lemma process_market_order_none (book : Orderbook)
    (results : OrderProcessingResult) (order_id oa pa : Nat) (side : OrderSide)
    (qty : Rat) (now : Nat) (h : (oppQueue book side).peekEntry = none) :
    process_market_order book results order_id oa pa side qty now =
      (book, results ++ [Except.error (Failed.NoMatch order_id)]) := by
  rw [process_market_order]
  split
  · next opp hpk => rw [h] at hpk; cases hpk
  · rfl

lemma process_market_order_complete (book : Orderbook)
    (results : OrderProcessingResult) (order_id oa pa : Nat) (side : OrderSide)
    (qty : Rat) (now : Nat) (opp : QEntry)
    (hpk : (oppQueue book side).peekEntry = some opp)
    (hc : (order_matching book results opp.order order_id oa pa
      OrderType.Market side qty now).complete = true) :
    process_market_order book results order_id oa pa side qty now =
      ((order_matching book results opp.order order_id oa pa
          OrderType.Market side qty now).book,
       (order_matching book results opp.order order_id oa pa
          OrderType.Market side qty now).results) := by
  rw [process_market_order]
  split
  · next opp' hpk' =>
      rw [hpk] at hpk'
      injection hpk' with he
      subst he
      rw [dif_pos hc]
  · next hpk' => rw [hpk] at hpk'; cases hpk'

lemma process_market_order_incomplete (book : Orderbook)
    (results : OrderProcessingResult) (order_id oa pa : Nat) (side : OrderSide)
    (qty : Rat) (now : Nat) (opp : QEntry)
    (hpk : (oppQueue book side).peekEntry = some opp)
    (hc : (order_matching book results opp.order order_id oa pa
      OrderType.Market side qty now).complete = false) :
    process_market_order book results order_id oa pa side qty now =
      process_market_order
        (order_matching book results opp.order order_id oa pa
          OrderType.Market side qty now).book
        (order_matching book results opp.order order_id oa pa
          OrderType.Market side qty now).results
        order_id oa pa side (qty - opp.order.qty) now := by
  rw [process_market_order]
  split
  · next opp' hpk' =>
      rw [hpk] at hpk'
      injection hpk' with he
      subst he
      rw [dif_neg (by simp [hc])]
  · next hpk' => rw [hpk] at hpk'; cases hpk'

lemma process_limit_order_none (book : Orderbook)
    (results : OrderProcessingResult) (order_id oa pa : Nat) (side : OrderSide)
    (price qty : Rat) (ts now : Nat)
    (h : (oppQueue book side).peekEntry = none) :
    process_limit_order book results order_id oa pa side price qty ts now =
      store_new_limit_order book results order_id oa pa side price qty ts := by
  rw [process_limit_order]
  split
  · next opp hpk => rw [h] at hpk; cases hpk
  · rfl

lemma process_limit_order_no_overlap (book : Orderbook)
    (results : OrderProcessingResult) (order_id oa pa : Nat) (side : OrderSide)
    (price qty : Rat) (ts now : Nat) (opp : QEntry)
    (hpk : (oppQueue book side).peekEntry = some opp)
    (hov : limitOverlap side opp.order.price price = false) :
    process_limit_order book results order_id oa pa side price qty ts now =
      store_new_limit_order book results order_id oa pa side price qty ts := by
  rw [process_limit_order]
  split
  · next opp' hpk' =>
      rw [hpk] at hpk'
      injection hpk' with he
      subst he
      rw [if_neg (by simp [hov])]
  · next hpk' => rw [hpk] at hpk'

lemma process_limit_order_overlap_complete (book : Orderbook)
    (results : OrderProcessingResult) (order_id oa pa : Nat) (side : OrderSide)
    (price qty : Rat) (ts now : Nat) (opp : QEntry)
    (hpk : (oppQueue book side).peekEntry = some opp)
    (hov : limitOverlap side opp.order.price price = true)
    (hc : (order_matching book results opp.order order_id oa pa
      OrderType.Limit side qty now).complete = true) :
    process_limit_order book results order_id oa pa side price qty ts now =
      ((order_matching book results opp.order order_id oa pa
          OrderType.Limit side qty now).book,
       (order_matching book results opp.order order_id oa pa
          OrderType.Limit side qty now).results) := by
  rw [process_limit_order]
  split
  · next opp' hpk' =>
      rw [hpk] at hpk'
      injection hpk' with he
      subst he
      rw [if_pos hov, dif_pos hc]
  · next hpk' => rw [hpk] at hpk'; cases hpk'

lemma process_limit_order_overlap_incomplete (book : Orderbook)
    (results : OrderProcessingResult) (order_id oa pa : Nat) (side : OrderSide)
    (price qty : Rat) (ts now : Nat) (opp : QEntry)
    (hpk : (oppQueue book side).peekEntry = some opp)
    (hov : limitOverlap side opp.order.price price = true)
    (hc : (order_matching book results opp.order order_id oa pa
      OrderType.Limit side qty now).complete = false) :
    process_limit_order book results order_id oa pa side price qty ts now =
      process_limit_order
        (order_matching book results opp.order order_id oa pa
          OrderType.Limit side qty now).book
        (order_matching book results opp.order order_id oa pa
          OrderType.Limit side qty now).results
        order_id oa pa side price (qty - opp.order.qty) ts now := by
  rw [process_limit_order]
  split
  · next opp' hpk' =>
      rw [hpk] at hpk'
      injection hpk' with he
      subst he
      rw [if_pos hov, dif_neg (by simp [hc])]
  · next hpk' => rw [hpk] at hpk'; cases hpk'

/-! ## Priority stability under `modify_current_order` -/

lemma entryBetter_congr_right (side : OrderSide) (e1 e2 e2' : QEntry)
    (hp : e2'.order.price = e2.order.price) (ht : e2'.ts = e2.ts) :
    entryBetter side e1 e2' = entryBetter side e1 e2 := by
  cases side <;> simp [entryBetter, hp, ht]

lemma entryBetter_congr_left (side : OrderSide) (e1 e1' e2 : QEntry)
    (hp : e1'.order.price = e1.order.price) (ht : e1'.ts = e1.ts) :
    entryBetter side e1' e2 = entryBetter side e1 e2 := by
  cases side <;> simp [entryBetter, hp, ht]

lemma bestIdx_set_same_key (side : OrderSide) (l : List QEntry) (i : Nat)
    (e x : QEntry) (hg : l[i]? = some e) (hp : x.order.price = e.order.price)
    (ht : x.ts = e.ts) :
    bestIdx side (l.set i x) = bestIdx side l := by
  induction l generalizing i with
  | nil => simp at hg
  | cons a rest ih =>
    cases i with
    | zero =>
      simp at hg
      subst hg
      rw [List.set_cons_zero, bestIdx, bestIdx]
      cases hb : bestIdx side rest with
      | none => rfl
      | some j =>
        simp only
        cases hgj : rest[j]? with
        | none => rfl
        | some bj =>
          simp only
          rw [entryBetter_congr_right side bj a x hp ht]
    | succ i =>
      simp only [List.getElem?_cons_succ] at hg
      rw [List.set_cons_succ, bestIdx, bestIdx, ih i hg]
      cases hb : bestIdx side rest with
      | none => rfl
      | some j =>
        simp only
        by_cases hij : i = j
        · subst hij
          have hlt : i < rest.length := (List.getElem?_eq_some.mp hg).1
          rw [List.getElem?_set, if_pos rfl, if_pos hlt, hg]
          simp only
          rw [entryBetter_congr_left side e x a hp ht]
        · rw [List.getElem?_set, if_neg hij]

lemma peekEntry_modify (q : OrderQueue) (e : QEntry) (o : Order)
    (h : q.peekEntry = some e) (hid : e.order.order_id = o.order_id)
    (hp : o.price = e.order.price) :
    (q.modify_current_order o).peekEntry = some ⟨o, e.ts⟩ := by
  obtain ⟨i, hb, hg, hset⟩ := modify_entries q e o h hid
  have hside := modify_side q o
  unfold OrderQueue.peekEntry
  rw [hside, hset]
  rw [bestIdx_set_same_key q.side q.entries i e ⟨o, e.ts⟩ hg hp rfl]
  rw [hb]
  have hlt : i < q.entries.length := (List.getElem?_eq_some.mp hg).1
  simp [List.getElem?_set, hlt]

/-! ## Claim theorems -/

/-- C1: the matching step `order_matching`, applied to the peeked
opposite-side best resting order O (quantity Q, price p*) and an incoming
order of quantity q, behaves exactly as the three-case reference
definition: if q < Q it emits Filled(incoming, p*, q) followed by
PartiallyFilled(O.id, p*, q) — the traded quantity — replaces the
top-of-book order of the opposite queue by one identical to O but with
quantity Q − q, and returns complete; if q > Q it emits
PartiallyFilled(incoming, p*, Q) followed by Filled(O.id, p*, Q), pops the
opposite queue and returns incomplete; if q = Q it emits Filled for both
at quantity q, pops the opposite queue and returns complete.  In every
case both events carry the resting price p* and the aggressor's event
precedes the maker's. -/
theorem claim_C1_order_matching_cases (book : Orderbook)
    (results : OrderProcessingResult) (e : QEntry) (order_id oa pa : Nat)
    (t : OrderType) (side : OrderSide) (qty : Rat) (now : Nat)
    (hpk : (oppQueue book side).peekEntry = some e)
    (hoa : e.order.order_asset = oa) (hpa : e.order.price_asset = pa) :
    (qty < e.order.qty →
      order_matching book results e.order order_id oa pa t side qty now =
        ⟨setOpp book side ((oppQueue book side).modify_current_order
            { e.order with qty := e.order.qty - qty }),
         results ++
           [Except.ok (Success.Filled order_id side t e.order.price qty now),
            Except.ok (Success.PartiallyFilled e.order.order_id e.order.side
              OrderType.Limit e.order.price qty now)],
         true⟩ ∧
      (oppQueue (order_matching book results e.order order_id oa pa t side
          qty now).book side).peek =
        some { e.order with qty := e.order.qty - qty }) ∧
    (e.order.qty < qty →
      order_matching book results e.order order_id oa pa t side qty now =
        ⟨setOpp book side ((oppQueue book side).popQ),
         results ++
           [Except.ok (Success.PartiallyFilled order_id side t e.order.price
              e.order.qty now),
            Except.ok (Success.Filled e.order.order_id e.order.side
              OrderType.Limit e.order.price e.order.qty now)],
         false⟩) ∧
    (qty = e.order.qty →
      order_matching book results e.order order_id oa pa t side qty now =
        ⟨setOpp book side ((oppQueue book side).popQ),
         results ++
           [Except.ok (Success.Filled order_id side t e.order.price qty now),
            Except.ok (Success.Filled e.order.order_id e.order.side
              OrderType.Limit e.order.price qty now)],
         true⟩) := by
  subst hoa hpa
  refine ⟨?_, ?_, ?_⟩
  · intro hlt
    have hcase := order_matching_case_lt book results e.order order_id
      e.order.order_asset e.order.price_asset t side qty now hlt
    refine ⟨hcase, ?_⟩
    rw [hcase]
    simp only [oppQueue_setOpp]
    unfold OrderQueue.peek
    rw [peekEntry_modify (oppQueue book side) e
      { e.order with qty := e.order.qty - qty } hpk rfl rfl]
    rfl
  · intro hgt
    exact order_matching_case_gt book results e.order order_id
      e.order.order_asset e.order.price_asset t side qty now hgt
  · intro heq
    exact order_matching_case_eq book results e.order order_id
      e.order.order_asset e.order.price_asset t side qty now
      (by rw [heq]; exact lt_irrefl _) (by rw [heq]; exact lt_irrefl _)

/-- C1 witness: a concrete book with one resting ask of quantity 5 at
price 10; an incoming bid for 2 takes the first case. -/
theorem claim_C1_witness :
    (2 : Rat) < 5 ∧
    (oppQueue (order_matching
        ⟨1, 2, ⟨OrderSide.Bid, []⟩, ⟨OrderSide.Ask, [⟨⟨9, 1, 2, OrderSide.Ask, 10, 5⟩, 0⟩]⟩⟩
        [] ⟨9, 1, 2, OrderSide.Ask, 10, 5⟩ 7 1 2 OrderType.Limit OrderSide.Bid
        2 11).book OrderSide.Bid).peek =
      some ⟨9, 1, 2, OrderSide.Ask, 10, (5 : Rat) - 2⟩ := by
  have h := claim_C1_order_matching_cases
    ⟨1, 2, ⟨OrderSide.Bid, []⟩, ⟨OrderSide.Ask, [⟨⟨9, 1, 2, OrderSide.Ask, 10, 5⟩, 0⟩]⟩⟩
    [] ⟨⟨9, 1, 2, OrderSide.Ask, 10, 5⟩, 0⟩ 7 1 2 OrderType.Limit OrderSide.Bid
    2 11 rfl rfl rfl
  exact ⟨by norm_num, (h.1 (by norm_num)).2⟩

/-- C3 counterexample: an `AmendOrder` whose price is non-positive and
whose id is the nil id is rejected with the id reason, not the price
reason — `validate_amend` checks the nil id before the price. -/
theorem claim_C3_counterexample :
    (Orderbook.new 1 2).validator.validate
        (OrderRequest.AmendOrder nilId OrderSide.Bid 0 1 5) =
      Except.error ERR_BAD_ORDER_ID ∧
    ERR_BAD_ORDER_ID ≠ ERR_BAD_PRICE_VALUE := by
  exact ⟨rfl, by decide⟩

/-- C3 (amended): the validator reports the reason of the first violated
rule in per-variant source order — for market and limit orders: order
asset, price asset, then price (limit only), then quantity; for amends:
id not nil first, then price, then quantity; for cancels: id not nil.
In particular an `AmendOrder` with non-positive price and nil id gets the
id reason. -/
theorem claim_C3_validator_first_failure (v : OrderRequestValidator)
    (id oa pa : Nat) (side : OrderSide) (price qty : Rat) (ts : Nat) :
    (id = nilId →
      v.validate (OrderRequest.AmendOrder id side price qty ts) =
        Except.error ERR_BAD_ORDER_ID) ∧
    (id ≠ nilId → price ≤ 0 →
      v.validate (OrderRequest.AmendOrder id side price qty ts) =
        Except.error ERR_BAD_PRICE_VALUE) ∧
    (id ≠ nilId → 0 < price → qty ≤ 0 →
      v.validate (OrderRequest.AmendOrder id side price qty ts) =
        Except.error ERR_BAD_QUANTITY_VALUE) ∧
    (v.orderbook_order_asset ≠ oa →
      v.validate (OrderRequest.NewLimitOrder id oa pa side price qty ts) =
        Except.error ERR_BAD_ORDER_ASSET) ∧
    (v.orderbook_order_asset = oa → v.orderbook_price_asset ≠ pa →
      v.validate (OrderRequest.NewLimitOrder id oa pa side price qty ts) =
        Except.error ERR_BAD_PRICE_ASSET) ∧
    (v.orderbook_order_asset = oa → v.orderbook_price_asset = pa → price ≤ 0 →
      v.validate (OrderRequest.NewLimitOrder id oa pa side price qty ts) =
        Except.error ERR_BAD_PRICE_VALUE) ∧
    (v.orderbook_order_asset = oa → v.orderbook_price_asset = pa →
      0 < price → qty ≤ 0 →
      v.validate (OrderRequest.NewLimitOrder id oa pa side price qty ts) =
        Except.error ERR_BAD_QUANTITY_VALUE) ∧
    (v.orderbook_order_asset = oa → v.orderbook_price_asset = pa → qty ≤ 0 →
      v.validate (OrderRequest.NewMarketOrder id oa pa side qty ts) =
        Except.error ERR_BAD_QUANTITY_VALUE) ∧
    (id = nilId →
      v.validate (OrderRequest.CancelOrder id side) =
        Except.error ERR_BAD_ORDER_ID) ∧
    (v.orderbook_order_asset ≠ oa →
      v.validate (OrderRequest.NewMarketOrder id oa pa side qty ts) =
        Except.error ERR_BAD_ORDER_ASSET) ∧
    (v.orderbook_order_asset = oa → v.orderbook_price_asset ≠ pa →
      v.validate (OrderRequest.NewMarketOrder id oa pa side qty ts) =
        Except.error ERR_BAD_PRICE_ASSET) := by
  refine ⟨?_, ?_, ?_, ?_, ?_, ?_, ?_, ?_, ?_, ?_, ?_⟩
  · intro h1
    simp [OrderRequestValidator.validate, OrderRequestValidator.validate_amend, h1]
  · intro h1 h2
    simp [OrderRequestValidator.validate, OrderRequestValidator.validate_amend, h1, h2]
  · intro h1 h2 h3
    simp [OrderRequestValidator.validate, OrderRequestValidator.validate_amend,
      h1, not_le.mpr h2, h3]
  · intro h1
    simp [OrderRequestValidator.validate, OrderRequestValidator.validate_limit, h1]
  · intro h1 h2
    simp [OrderRequestValidator.validate, OrderRequestValidator.validate_limit, h1, h2]
  · intro h1 h2 h3
    simp [OrderRequestValidator.validate, OrderRequestValidator.validate_limit,
      h1, h2, h3]
  · intro h1 h2 h3 h4
    simp [OrderRequestValidator.validate, OrderRequestValidator.validate_limit,
      h1, h2, not_le.mpr h3, h4]
  · intro h1 h2 h3
    simp [OrderRequestValidator.validate, OrderRequestValidator.validate_market,
      h1, h2, h3]
  · intro h1
    simp [OrderRequestValidator.validate, OrderRequestValidator.validate_cancel, h1]
  · intro h1
    simp [OrderRequestValidator.validate, OrderRequestValidator.validate_market, h1]
  · intro h1 h2
    simp [OrderRequestValidator.validate, OrderRequestValidator.validate_market, h1, h2]

/-- C3 witness: a non-nil id amend with negative price fails on the price
rule. -/
theorem claim_C3_witness :
    (⟨1, 2⟩ : OrderRequestValidator).validate
        (OrderRequest.AmendOrder 3 OrderSide.Bid (-1) 2 5) =
      Except.error ERR_BAD_PRICE_VALUE :=
  (claim_C3_validator_first_failure ⟨1, 2⟩ 3 1 2 OrderSide.Bid (-1) 2 5).2.1
    (by decide) (by norm_num)

/-- C7: when the validator rejects an intent, `process_order` returns
exactly the one-element vector containing `ValidationFailed` with the
rule's reason and leaves the whole orderbook state unchanged. -/
theorem claim_C7_validation_failed (book : Orderbook) (order : OrderRequest)
    (now : Nat) (reason : String)
    (h : book.validator.validate order = Except.error reason) :
    process_order book order now =
      (book, [Except.error (Failed.ValidationFailed reason)]) := by
  unfold process_order
  simp only [h]

/-- C7 witness: cancelling the nil id is rejected and mutates nothing. -/
theorem claim_C7_witness :
    process_order (Orderbook.new 1 2) (OrderRequest.CancelOrder nilId OrderSide.Bid) 3 =
      (Orderbook.new 1 2, [Except.error (Failed.ValidationFailed ERR_BAD_ORDER_ID)]) :=
  claim_C7_validation_failed (Orderbook.new 1 2)
    (OrderRequest.CancelOrder nilId OrderSide.Bid) 3 ERR_BAD_ORDER_ID rfl

/-- C9: `current_spread` returns none exactly when at least one queue has
no live order, and otherwise the pair of the two best prices produced by
`peek`; it is a pure observation of the book. -/
theorem claim_C9_current_spread (book : Orderbook) :
    (current_spread book = none ↔
      (book.bid_queue.peek = none ∨ book.ask_queue.peek = none)) ∧
    (∀ ob oa, book.bid_queue.peek = some ob → book.ask_queue.peek = some oa →
      current_spread book = some (ob.price, oa.price)) := by
  constructor
  · unfold current_spread
    cases hb : book.bid_queue.peek with
    | none => simp
    | some ob =>
      cases ha : book.ask_queue.peek with
      | none => simp
      | some oa => simp
  · intro ob oa hb ha
    unfold current_spread
    simp only [hb, ha]

/-- C9 witness: a book with one resting bid at 10 and one resting ask at
12 has spread (10, 12). -/
theorem claim_C9_witness :
    current_spread ⟨1, 2, ⟨OrderSide.Bid, [⟨⟨5, 1, 2, OrderSide.Bid, 10, 1⟩, 0⟩]⟩,
        ⟨OrderSide.Ask, [⟨⟨6, 1, 2, OrderSide.Ask, 12, 1⟩, 0⟩]⟩⟩ =
      some (10, 12) :=
  (claim_C9_current_spread _).2 ⟨5, 1, 2, OrderSide.Bid, 10, 1⟩
    ⟨6, 1, 2, OrderSide.Ask, 12, 1⟩ rfl rfl

/-! ## Invariant predicates -/

/-- Every live order of the queue has strictly positive remaining
quantity. -/
def QueuePos (q : OrderQueue) : Prop := ∀ e ∈ q.entries, 0 < e.order.qty

/-- Every live order of either side has strictly positive remaining
quantity. -/
def PosInv (b : Orderbook) : Prop := QueuePos b.bid_queue ∧ QueuePos b.ask_queue

/-- Every `Filled` / `PartiallyFilled` event of the vector reports a
strictly positive quantity. -/
def EventsPos (rs : OrderProcessingResult) : Prop :=
  ∀ r ∈ rs, isFillEvent r = true → 0 < fillQty r

/-- The comparator sides fixed at construction are the right ones. -/
def SidesOK (b : Orderbook) : Prop :=
  b.bid_queue.side = OrderSide.Bid ∧ b.ask_queue.side = OrderSide.Ask

/-- Monotone spread, in universal form: every live bid price is strictly
below every live ask price (equivalent to best bid < best ask when both
sides are non-empty). -/
def SpreadInv (b : Orderbook) : Prop :=
  ∀ eb ∈ b.bid_queue.entries, ∀ ea ∈ b.ask_queue.entries,
    eb.order.price < ea.order.price

/-! ## Invariant plumbing lemmas -/

lemma insert_side (q : OrderQueue) (o : Order) (ts : Nat) :
    ((q.insert o ts).2).side = q.side := by
  unfold OrderQueue.insert
  split <;> rfl

lemma cancel_side (q : OrderQueue) (id : Nat) :
    ((q.cancel id).2).side = q.side := by
  unfold OrderQueue.cancel
  split <;> rfl

lemma amend_side (q : OrderQueue) (id : Nat) (ts : Nat) (o : Order) :
    ((q.amend id ts o).2).side = q.side := by
  unfold OrderQueue.amend
  split <;> rfl

lemma queuePos_popQ (q : OrderQueue) (h : QueuePos q) : QueuePos q.popQ :=
  fun e he => h e (popQ_sub q he)

lemma queuePos_modify (q : OrderQueue) (o : Order) (h : QueuePos q)
    (ho : 0 < o.qty) : QueuePos (q.modify_current_order o) := by
  intro e' he'
  rcases modify_mem q o e' he' with hm | hm
  · exact h e' hm
  · rw [hm]; exact ho

lemma queuePos_insert (q : OrderQueue) (o : Order) (ts : Nat) (h : QueuePos q)
    (ho : 0 < o.qty) : QueuePos (q.insert o ts).2 := by
  unfold OrderQueue.insert
  split
  · exact h
  · intro e' he'
    rcases List.mem_append.mp he' with hm | hm
    · exact h e' hm
    · simp at hm
      rw [hm]
      exact ho

lemma queuePos_cancel (q : OrderQueue) (id : Nat) (h : QueuePos q) :
    QueuePos (q.cancel id).2 := by
  unfold OrderQueue.cancel
  split
  · exact fun e' he' => h e' (List.mem_of_mem_filter he')
  · exact h

lemma queuePos_amend (q : OrderQueue) (id : Nat) (ts : Nat) (o : Order)
    (h : QueuePos q) (ho : 0 < o.qty) : QueuePos (q.amend id ts o).2 := by
  unfold OrderQueue.amend
  split
  · intro e' he'
    rcases List.mem_append.mp he' with hm | hm
    · exact h e' (List.mem_of_mem_filter hm)
    · simp at hm
      rw [hm]
      exact ho
  · exact h

lemma posInv_opp (b : Orderbook) (side : OrderSide) (h : PosInv b) :
    QueuePos (oppQueue b side) := by
  cases side
  · exact h.2
  · exact h.1

lemma posInv_own (b : Orderbook) (side : OrderSide) (h : PosInv b) :
    QueuePos (ownQueue b side) := by
  cases side
  · exact h.1
  · exact h.2

lemma posInv_setOpp (b : Orderbook) (side : OrderSide) (q : OrderQueue)
    (h : PosInv b) (hq : QueuePos q) : PosInv (setOpp b side q) := by
  cases side
  · exact ⟨h.1, hq⟩
  · exact ⟨hq, h.2⟩

lemma posInv_setOwn (b : Orderbook) (side : OrderSide) (q : OrderQueue)
    (h : PosInv b) (hq : QueuePos q) : PosInv (setOwn b side q) := by
  cases side
  · exact ⟨hq, h.2⟩
  · exact ⟨h.1, hq⟩

lemma eventsPos_append (rs1 rs2 : OrderProcessingResult) :
    EventsPos (rs1 ++ rs2) ↔ EventsPos rs1 ∧ EventsPos rs2 := by
  unfold EventsPos
  exact List.forall_mem_append

/-! ## Validator success lemmas -/

lemma validate_market_ok (v : OrderRequestValidator) (oa pa : Nat) (qty : Rat)
    (h : v.validate_market oa pa qty = Except.ok ()) :
    v.orderbook_order_asset = oa ∧ v.orderbook_price_asset = pa ∧ 0 < qty := by
  unfold OrderRequestValidator.validate_market at h
  split_ifs at h with h1 h2 h3
  exact ⟨not_not.mp h1, not_not.mp h2, not_le.mp h3⟩

lemma validate_limit_ok (v : OrderRequestValidator) (oa pa : Nat)
    (price qty : Rat) (h : v.validate_limit oa pa price qty = Except.ok ()) :
    v.orderbook_order_asset = oa ∧ v.orderbook_price_asset = pa ∧
      0 < price ∧ 0 < qty := by
  unfold OrderRequestValidator.validate_limit at h
  split_ifs at h with h1 h2 h3 h4
  exact ⟨not_not.mp h1, not_not.mp h2, not_le.mp h3, not_le.mp h4⟩

lemma validate_amend_ok (v : OrderRequestValidator) (id : Nat)
    (price qty : Rat) (h : v.validate_amend id price qty = Except.ok ()) :
    id ≠ nilId ∧ 0 < price ∧ 0 < qty := by
  unfold OrderRequestValidator.validate_amend at h
  split_ifs at h with h1 h2 h3
  exact ⟨h1, not_le.mp h2, not_le.mp h3⟩

/-! ## order_matching: completeness flag and invariants -/

lemma order_matching_complete_false_iff (book : Orderbook)
    (results : OrderProcessingResult) (O : Order) (order_id oa pa : Nat)
    (t : OrderType) (side : OrderSide) (qty : Rat) (now : Nat) :
    ((order_matching book results O order_id oa pa t side qty now).complete
      = false) ↔ O.qty < qty := by
  unfold order_matching
  split_ifs with h1 h2
  · simp only [Bool.true_eq_false, false_iff]
    intro hc
    linarith
  · simp [h2]
  · simp [h2]

lemma order_matching_posInv (book : Orderbook)
    (results : OrderProcessingResult) (e : QEntry) (order_id oa pa : Nat)
    (t : OrderType) (side : OrderSide) (qty : Rat) (now : Nat)
    (hb : PosInv book) :
    PosInv (order_matching book results e.order order_id oa pa t side qty
      now).book := by
  by_cases h1 : qty < e.order.qty
  · rw [order_matching_case_lt book results e.order order_id oa pa t side qty
      now h1]
    exact posInv_setOpp _ _ _ hb
      (queuePos_modify _ _ (posInv_opp book side hb) (by simp; linarith))
  · by_cases h2 : e.order.qty < qty
    · rw [order_matching_case_gt book results e.order order_id oa pa t side
        qty now h2]
      exact posInv_setOpp _ _ _ hb (queuePos_popQ _ (posInv_opp book side hb))
    · rw [order_matching_case_eq book results e.order order_id oa pa t side
        qty now h1 h2]
      exact posInv_setOpp _ _ _ hb (queuePos_popQ _ (posInv_opp book side hb))

lemma order_matching_events_pos (book : Orderbook)
    (results : OrderProcessingResult) (e : QEntry) (order_id oa pa : Nat)
    (t : OrderType) (side : OrderSide) (qty : Rat) (now : Nat)
    (hq : 0 < qty) (he : 0 < e.order.qty) (hres : EventsPos results) :
    EventsPos (order_matching book results e.order order_id oa pa t side qty
      now).results := by
  by_cases h1 : qty < e.order.qty
  · rw [order_matching_case_lt book results e.order order_id oa pa t side qty
      now h1]
    refine (eventsPos_append _ _).mpr ⟨hres, ?_⟩
    intro r hr _
    simp only [List.mem_cons, List.not_mem_nil, or_false] at hr
    rcases hr with hr | hr <;> (rw [hr]; simpa [fillQty] using hq)
  · by_cases h2 : e.order.qty < qty
    · rw [order_matching_case_gt book results e.order order_id oa pa t side
        qty now h2]
      refine (eventsPos_append _ _).mpr ⟨hres, ?_⟩
      intro r hr _
      simp only [List.mem_cons, List.not_mem_nil, or_false] at hr
      rcases hr with hr | hr <;> (rw [hr]; simpa [fillQty] using he)
    · rw [order_matching_case_eq book results e.order order_id oa pa t side
        qty now h1 h2]
      refine (eventsPos_append _ _).mpr ⟨hres, ?_⟩
      intro r hr _
      simp only [List.mem_cons, List.not_mem_nil, or_false] at hr
      rcases hr with hr | hr <;> (rw [hr]; simpa [fillQty] using hq)

/-! ## Positivity through the processing functions -/

lemma process_market_order_pos (book : Orderbook)
    (results : OrderProcessingResult) (order_id oa pa : Nat) (side : OrderSide)
    (qty : Rat) (now : Nat) :
    0 < qty → PosInv book → EventsPos results →
    PosInv (process_market_order book results order_id oa pa side qty now).1 ∧
    EventsPos (process_market_order book results order_id oa pa side qty now).2 := by
  induction book, results, order_id, oa, pa, side, qty, now
    using process_market_order.induct with
  | case1 book results order_id oa pa side qty now opp hpk step hc =>
    have hstep : step = order_matching book results opp.order order_id oa pa
      OrderType.Market side qty now := rfl
    rw [hstep] at hc
    intro hq hb hres
    rw [process_market_order_complete book results order_id oa pa side qty now
      opp hpk hc]
    have he : 0 < opp.order.qty :=
      posInv_opp book side hb opp (peekEntry_spec _ _ hpk).1
    exact ⟨order_matching_posInv book results opp order_id oa pa
        OrderType.Market side qty now hb,
      order_matching_events_pos book results opp order_id oa pa
        OrderType.Market side qty now hq he hres⟩
  | case2 book results order_id oa pa side qty now opp hpk step hc ih =>
    have hstep : step = order_matching book results opp.order order_id oa pa
      OrderType.Market side qty now := rfl
    rw [hstep] at hc ih
    intro hq hb hres
    have hfalse : (order_matching book results opp.order order_id oa pa
        OrderType.Market side qty now).complete = false := by
      simpa using hc
    rw [process_market_order_incomplete book results order_id oa pa side qty
      now opp hpk hfalse]
    have he : 0 < opp.order.qty :=
      posInv_opp book side hb opp (peekEntry_spec _ _ hpk).1
    have hgt : opp.order.qty < qty :=
      (order_matching_complete_false_iff book results opp.order order_id oa pa
        OrderType.Market side qty now).mp hfalse
    exact ih (by linarith)
      (order_matching_posInv book results opp order_id oa pa
        OrderType.Market side qty now hb)
      (order_matching_events_pos book results opp order_id oa pa
        OrderType.Market side qty now hq he hres)
  | case3 book results order_id oa pa side qty now hpk =>
    intro hq hb hres
    rw [process_market_order_none book results order_id oa pa side qty now hpk]
    refine ⟨hb, (eventsPos_append _ _).mpr ⟨hres, ?_⟩⟩
    intro r hr hfill
    simp at hr
    rw [hr] at hfill
    simp [isFillEvent] at hfill

lemma store_new_limit_order_pos (book : Orderbook)
    (results : OrderProcessingResult) (order_id oa pa : Nat) (side : OrderSide)
    (price qty : Rat) (ts : Nat) (hq : 0 < qty) (hb : PosInv book)
    (hres : EventsPos results) :
    PosInv (store_new_limit_order book results order_id oa pa side price qty ts).1 ∧
    EventsPos (store_new_limit_order book results order_id oa pa side price qty ts).2 := by
  simp only [store_new_limit_order]
  split
  · exact ⟨posInv_setOwn _ _ _ hb
      (queuePos_insert _ _ _ (posInv_own book side hb) hq), hres⟩
  · refine ⟨posInv_setOwn _ _ _ hb
      (queuePos_insert _ _ _ (posInv_own book side hb) hq),
      (eventsPos_append _ _).mpr ⟨hres, ?_⟩⟩
    intro r hr hfill
    simp at hr
    rw [hr] at hfill
    simp [isFillEvent] at hfill

lemma process_limit_order_pos (book : Orderbook)
    (results : OrderProcessingResult) (order_id oa pa : Nat) (side : OrderSide)
    (price qty : Rat) (ts now : Nat) :
    0 < qty → PosInv book → EventsPos results →
    PosInv (process_limit_order book results order_id oa pa side price qty ts now).1 ∧
    EventsPos (process_limit_order book results order_id oa pa side price qty ts now).2 := by
  induction book, results, order_id, oa, pa, side, price, qty, ts, now
    using process_limit_order.induct with
  | case1 book results order_id oa pa side price qty ts now opp hpk hov step hc =>
    have hstep : step = order_matching book results opp.order order_id oa pa
      OrderType.Limit side qty now := rfl
    rw [hstep] at hc
    intro hq hb hres
    rw [process_limit_order_overlap_complete book results order_id oa pa side
      price qty ts now opp hpk hov hc]
    have he : 0 < opp.order.qty :=
      posInv_opp book side hb opp (peekEntry_spec _ _ hpk).1
    exact ⟨order_matching_posInv book results opp order_id oa pa
        OrderType.Limit side qty now hb,
      order_matching_events_pos book results opp order_id oa pa
        OrderType.Limit side qty now hq he hres⟩
  | case2 book results order_id oa pa side price qty ts now opp hpk hov step hc ih =>
    have hstep : step = order_matching book results opp.order order_id oa pa
      OrderType.Limit side qty now := rfl
    rw [hstep] at hc ih
    intro hq hb hres
    have hfalse : (order_matching book results opp.order order_id oa pa
        OrderType.Limit side qty now).complete = false := by
      simpa using hc
    rw [process_limit_order_overlap_incomplete book results order_id oa pa side
      price qty ts now opp hpk hov hfalse]
    have he : 0 < opp.order.qty :=
      posInv_opp book side hb opp (peekEntry_spec _ _ hpk).1
    have hgt : opp.order.qty < qty :=
      (order_matching_complete_false_iff book results opp.order order_id oa pa
        OrderType.Limit side qty now).mp hfalse
    exact ih (by linarith)
      (order_matching_posInv book results opp order_id oa pa
        OrderType.Limit side qty now hb)
      (order_matching_events_pos book results opp order_id oa pa
        OrderType.Limit side qty now hq he hres)
  | case3 book results order_id oa pa side price qty ts now opp hpk hov =>
    intro hq hb hres
    rw [process_limit_order_no_overlap book results order_id oa pa side price
      qty ts now opp hpk (by simpa using hov)]
    exact store_new_limit_order_pos book results order_id oa pa side price qty
      ts hq hb hres
  | case4 book results order_id oa pa side price qty ts now hpk =>
    intro hq hb hres
    rw [process_limit_order_none book results order_id oa pa side price qty ts
      now hpk]
    exact store_new_limit_order_pos book results order_id oa pa side price qty
      ts hq hb hres

/-- C10: for every intent accepted by the validator, every recursive step
of the matching receives a strictly positive remaining quantity (the
matcher returns incomplete only when the incoming quantity strictly
exceeds the resting one, so q − Q stays positive), and consequently —
assuming every live order of the book has positive quantity, which
`process_order` preserves — every `Filled` and `PartiallyFilled` event
ever emitted reports a strictly positive quantity. -/
theorem claim_C10_positive_quantities (book : Orderbook)
    (order : OrderRequest) (now : Nat) (hpos : PosInv book) :
    PosInv (process_order book order now).1 ∧
    EventsPos (process_order book order now).2 := by
  have hsingle : ∀ reason, EventsPos [Except.error (Failed.ValidationFailed reason)] := by
    intro reason r hr hfill
    simp at hr
    rw [hr] at hfill
    simp [isFillEvent] at hfill
  cases order with
  | NewMarketOrder order_id oa pa side qty ts =>
    unfold process_order
    rcases hval : book.validator.validate
        (OrderRequest.NewMarketOrder order_id oa pa side qty ts) with reason | u
    · simp only [hval]
      exact ⟨hpos, hsingle reason⟩
    · cases u
      simp only [hval]
      have hq : 0 < qty :=
        (validate_market_ok book.validator oa pa qty hval).2.2
      refine process_market_order_pos book _ order_id oa pa side qty now hq hpos ?_
      intro r hr hfill
      simp at hr
      rw [hr] at hfill
      simp [isFillEvent] at hfill
  | NewLimitOrder order_id oa pa side price qty ts =>
    unfold process_order
    rcases hval : book.validator.validate
        (OrderRequest.NewLimitOrder order_id oa pa side price qty ts) with reason | u
    · simp only [hval]
      exact ⟨hpos, hsingle reason⟩
    · cases u
      simp only [hval]
      have hq : 0 < qty :=
        (validate_limit_ok book.validator oa pa price qty hval).2.2.2
      refine process_limit_order_pos book _ order_id oa pa side price qty ts now hq hpos ?_
      intro r hr hfill
      simp at hr
      rw [hr] at hfill
      simp [isFillEvent] at hfill
  | AmendOrder id side price qty ts =>
    unfold process_order
    rcases hval : book.validator.validate
        (OrderRequest.AmendOrder id side price qty ts) with reason | u
    · simp only [hval]
      exact ⟨hpos, hsingle reason⟩
    · cases u
      simp only [hval]
      have hq : 0 < qty :=
        (validate_amend_ok book.validator id price qty hval).2.2
      simp only [process_order_amend]
      split
      · refine ⟨posInv_setOwn _ _ _ hpos
          (queuePos_amend _ _ _ _ (posInv_own book side hpos) hq), ?_⟩
        intro r hr hfill
        simp at hr
        rw [hr] at hfill
        simp [isFillEvent] at hfill
      · refine ⟨posInv_setOwn _ _ _ hpos
          (queuePos_amend _ _ _ _ (posInv_own book side hpos) hq), ?_⟩
        intro r hr hfill
        simp at hr
        rw [hr] at hfill
        simp [isFillEvent] at hfill
  | CancelOrder id side =>
    unfold process_order
    rcases hval : book.validator.validate
        (OrderRequest.CancelOrder id side) with reason | u
    · simp only [hval]
      exact ⟨hpos, hsingle reason⟩
    · cases u
      simp only [hval]
      simp only [process_order_cancel]
      split
      · refine ⟨posInv_setOwn _ _ _ hpos
          (queuePos_cancel _ _ (posInv_own book side hpos)), ?_⟩
        intro r hr hfill
        simp at hr
        rw [hr] at hfill
        simp [isFillEvent] at hfill
      · refine ⟨posInv_setOwn _ _ _ hpos
          (queuePos_cancel _ _ (posInv_own book side hpos)), ?_⟩
        intro r hr hfill
        simp at hr
        rw [hr] at hfill
        simp [isFillEvent] at hfill

/-! ## Market-order event-shape lemmas (towards C6) -/

lemma not_noMatch_mem_fills (rs : OrderProcessingResult) (id : Nat)
    (a b : Success) (h : Except.error (Failed.NoMatch id) ∉ rs) :
    Except.error (Failed.NoMatch id) ∉ rs ++ [Except.ok a, Except.ok b] := by
  intro hm
  rcases List.mem_append.mp hm with hm | hm
  · exact h hm
  · simp at hm

instance : DecidableEq EvResult
  | Except.error x, Except.error y =>
    if h : x = y then isTrue (by rw [h]) else
      isFalse (by intro hc; injection hc; contradiction)
  | Except.error x, Except.ok y => isFalse (fun hc => Except.noConfusion hc)
  | Except.ok x, Except.error y => isFalse (fun hc => Except.noConfusion hc)
  | Except.ok x, Except.ok y =>
    if h : x = y then isTrue (by rw [h]) else
      isFalse (by intro hc; injection hc; contradiction)

lemma count_noMatch_fills (rs : OrderProcessingResult) (id : Nat)
    (a b : Success) :
    List.count (Except.error (Failed.NoMatch id)) (rs ++ [Except.ok a, Except.ok b])
      = List.count (Except.error (Failed.NoMatch id)) rs := by
  rw [List.count_append]
  simp

/-- Traded-quantity bookkeeping for one matching step: the aggressor event
carries the incoming id, the maker event the resting id. -/
lemma tradedQty_step_lt (rs : OrderProcessingResult) (id oid : Nat)
    (s os : OrderSide) (t : OrderType) (p q : Rat) (ts : Nat)
    (hoid : oid ≠ id) :
    tradedQty id (rs ++ [Except.ok (Success.Filled id s t p q ts),
      Except.ok (Success.PartiallyFilled oid os OrderType.Limit p q ts)]) =
      tradedQty id rs + q := by
  rw [tradedQty_append]
  simp [tradedQty, hoid]

lemma tradedQty_step_gt (rs : OrderProcessingResult) (id oid : Nat)
    (s os : OrderSide) (t : OrderType) (p q : Rat) (ts : Nat)
    (hoid : oid ≠ id) :
    tradedQty id (rs ++ [Except.ok (Success.PartiallyFilled id s t p q ts),
      Except.ok (Success.Filled oid os OrderType.Limit p q ts)]) =
      tradedQty id rs + q := by
  rw [tradedQty_append]
  simp [tradedQty, hoid]

lemma tradedQty_step_eq (rs : OrderProcessingResult) (id oid : Nat)
    (s os : OrderSide) (t : OrderType) (p q : Rat) (ts : Nat)
    (hoid : oid ≠ id) :
    tradedQty id (rs ++ [Except.ok (Success.Filled id s t p q ts),
      Except.ok (Success.Filled oid os OrderType.Limit p q ts)]) =
      tradedQty id rs + q := by
  rw [tradedQty_append]
  simp [tradedQty, hoid]

lemma tradedQty_noMatch (rs : OrderProcessingResult) (id nid : Nat) :
    tradedQty id (rs ++ [Except.error (Failed.NoMatch nid)]) = tradedQty id rs := by
  rw [tradedQty_append]
  simp [tradedQty]

/-- Strengthened membership after `modify_current_order`: any new record
replaces a live entry that carried the same order id. -/
lemma modify_mem_ids (q : OrderQueue) (o : Order) (e' : QEntry)
    (h : e' ∈ (q.modify_current_order o).entries) :
    e' ∈ q.entries ∨
      (e'.order = o ∧ ∃ e0 ∈ q.entries, e0.order.order_id = o.order_id) := by
  unfold OrderQueue.modify_current_order at h
  cases hb : bestIdx q.side q.entries with
  | none => rw [hb] at h; exact Or.inl h
  | some i =>
    simp only [hb] at h
    cases hg : q.entries[i]? with
    | none => rw [hg] at h; exact Or.inl h
    | some e =>
      simp only [hg] at h
      by_cases hid : e.order.order_id = o.order_id
      · rw [if_pos hid] at h
        rcases List.mem_or_eq_of_mem_set h with h | h
        · exact Or.inl h
        · subst h
          refine Or.inr ⟨rfl, e, ?_, hid⟩
          obtain ⟨hlt, hEq⟩ := List.getElem?_eq_some.mp hg
          exact hEq ▸ List.getElem_mem hlt
      · rw [if_neg hid] at h
        exact Or.inl h

/-- Opposite-queue id-freshness is preserved by one matching step. -/
lemma order_matching_opp_fresh (book : Orderbook)
    (results : OrderProcessingResult) (opp : QEntry) (order_id oa pa : Nat)
    (t : OrderType) (side : OrderSide) (qty : Rat) (now : Nat) (id : Nat)
    (hfresh : ∀ e ∈ (oppQueue book side).entries, e.order.order_id ≠ id) :
    ∀ e ∈ (oppQueue (order_matching book results opp.order order_id oa pa t
      side qty now).book side).entries, e.order.order_id ≠ id := by
  by_cases h1 : qty < opp.order.qty
  · rw [order_matching_case_lt book results opp.order order_id oa pa t side
      qty now h1]
    rw [oppQueue_setOpp]
    intro e he
    rcases modify_mem_ids _ _ _ he with hm | ⟨hm, e0, he0, hid0⟩
    · exact hfresh e hm
    · have hne := hfresh e0 he0
      rw [hid0] at hne
      rw [hm]
      exact hne
  · by_cases h2 : opp.order.qty < qty
    · rw [order_matching_case_gt book results opp.order order_id oa pa t side
        qty now h2]
      rw [oppQueue_setOpp]
      exact fun e he => hfresh e (popQ_sub _ he)
    · rw [order_matching_case_eq book results opp.order order_id oa pa t side
        qty now h1 h2]
      rw [oppQueue_setOpp]
      exact fun e he => hfresh e (popQ_sub _ he)

/-- Behaviour of the recursive market-order driver: the own-side queue is
never touched, the market order's id is never inserted into the opposite
queue, and the events either end with a single NoMatch (with strictly less
than the full quantity traded) or contain no NoMatch and trade exactly the
full quantity. -/
lemma process_market_order_spec (book : Orderbook)
    (results : OrderProcessingResult) (order_id oa pa : Nat) (side : OrderSide)
    (qty : Rat) (now : Nat) :
    0 < qty → PosInv book →
    (∀ e ∈ (oppQueue book side).entries, e.order.order_id ≠ order_id) →
    Except.error (Failed.NoMatch order_id) ∉ results →
    ownQueue (process_market_order book results order_id oa pa side qty now).1
        side = ownQueue book side ∧
    (∀ e ∈ (oppQueue (process_market_order book results order_id oa pa side
        qty now).1 side).entries, e.order.order_id ≠ order_id) ∧
    (((process_market_order book results order_id oa pa side qty now).2.getLast?
        = some (Except.error (Failed.NoMatch order_id)) ∧
      List.count (Except.error (Failed.NoMatch order_id))
        (process_market_order book results order_id oa pa side qty now).2 = 1 ∧
      tradedQty order_id
        (process_market_order book results order_id oa pa side qty now).2
        < tradedQty order_id results + qty) ∨
     (Except.error (Failed.NoMatch order_id) ∉
        (process_market_order book results order_id oa pa side qty now).2 ∧
      tradedQty order_id
        (process_market_order book results order_id oa pa side qty now).2
        = tradedQty order_id results + qty)) := by
  induction book, results, order_id, oa, pa, side, qty, now
    using process_market_order.induct with
  | case1 book results order_id oa pa side qty now opp hpk step hc =>
    have hstep : step = order_matching book results opp.order order_id oa pa
      OrderType.Market side qty now := rfl
    rw [hstep] at hc
    intro hq hpos hfresh hnm
    rw [process_market_order_complete book results order_id oa pa side qty now
      opp hpk hc]
    have hoppmem : opp ∈ (oppQueue book side).entries :=
      (peekEntry_spec _ _ hpk).1
    have hoppid : opp.order.order_id ≠ order_id := hfresh opp hoppmem
    refine ⟨order_matching_own book results opp.order order_id oa pa
        OrderType.Market side qty now,
      order_matching_opp_fresh book results opp order_id oa pa
        OrderType.Market side qty now order_id hfresh, ?_⟩
    have hngt : ¬ opp.order.qty < qty := by
      intro hgt
      rw [(order_matching_complete_false_iff book results opp.order order_id
        oa pa OrderType.Market side qty now).mpr hgt] at hc
      cases hc
    by_cases h1 : qty < opp.order.qty
    · rw [order_matching_case_lt book results opp.order order_id oa pa
        OrderType.Market side qty now h1]
      exact Or.inr ⟨not_noMatch_mem_fills results order_id _ _ hnm,
        tradedQty_step_lt results order_id opp.order.order_id side
          opp.order.side OrderType.Market opp.order.price qty now hoppid⟩
    · rw [order_matching_case_eq book results opp.order order_id oa pa
        OrderType.Market side qty now h1 hngt]
      exact Or.inr ⟨not_noMatch_mem_fills results order_id _ _ hnm,
        tradedQty_step_eq results order_id opp.order.order_id side
          opp.order.side OrderType.Market opp.order.price qty now hoppid⟩
  | case2 book results order_id oa pa side qty now opp hpk step hc ih =>
    have hstep : step = order_matching book results opp.order order_id oa pa
      OrderType.Market side qty now := rfl
    rw [hstep] at hc ih
    intro hq hpos hfresh hnm
    have hfalse : (order_matching book results opp.order order_id oa pa
        OrderType.Market side qty now).complete = false := by
      simpa using hc
    have hgt : opp.order.qty < qty :=
      (order_matching_complete_false_iff book results opp.order order_id oa pa
        OrderType.Market side qty now).mp hfalse
    have hoppmem : opp ∈ (oppQueue book side).entries :=
      (peekEntry_spec _ _ hpk).1
    have hoppid : opp.order.order_id ≠ order_id := hfresh opp hoppmem
    have he : 0 < opp.order.qty := posInv_opp book side hpos opp hoppmem
    rw [process_market_order_incomplete book results order_id oa pa side qty
      now opp hpk hfalse]
    have hres_eq : (order_matching book results opp.order order_id oa pa
        OrderType.Market side qty now).results =
        results ++ [Except.ok (Success.PartiallyFilled order_id side
          OrderType.Market opp.order.price opp.order.qty now),
          Except.ok (Success.Filled opp.order.order_id opp.order.side
            OrderType.Limit opp.order.price opp.order.qty now)] := by
      rw [order_matching_case_gt book results opp.order order_id oa pa
        OrderType.Market side qty now hgt]
    have hnm' : Except.error (Failed.NoMatch order_id) ∉
        (order_matching book results opp.order order_id oa pa
          OrderType.Market side qty now).results := by
      rw [hres_eq]
      exact not_noMatch_mem_fills results order_id _ _ hnm
    have htr : tradedQty order_id
        (order_matching book results opp.order order_id oa pa
          OrderType.Market side qty now).results =
        tradedQty order_id results + opp.order.qty := by
      rw [hres_eq]
      exact tradedQty_step_gt results order_id opp.order.order_id side
        opp.order.side OrderType.Market opp.order.price opp.order.qty now hoppid
    obtain ⟨ih1, ih2, ih3⟩ := ih (by linarith)
      (order_matching_posInv book results opp order_id oa pa
        OrderType.Market side qty now hpos)
      (order_matching_opp_fresh book results opp order_id oa pa
        OrderType.Market side qty now order_id hfresh)
      hnm'
    refine ⟨by rw [ih1, order_matching_own], ih2, ?_⟩
    rcases ih3 with ⟨hl1, hl2, hl3⟩ | ⟨hr1, hr2⟩
    · exact Or.inl ⟨hl1, hl2, by rw [htr] at hl3; linarith⟩
    · exact Or.inr ⟨hr1, by rw [htr] at hr2; linarith⟩
  | case3 book results order_id oa pa side qty now hpk =>
    intro hq hpos hfresh hnm
    rw [process_market_order_none book results order_id oa pa side qty now hpk]
    refine ⟨rfl, hfresh, Or.inl ⟨?_, ?_, ?_⟩⟩
    · show (results ++ [Except.error (Failed.NoMatch order_id)]).getLast? =
        some (Except.error (Failed.NoMatch order_id))
      exact List.getLast?_concat _
    · rw [List.count_append]
      rw [List.count_eq_zero.mpr hnm]
      simp
    · rw [tradedQty_noMatch]
      linarith

/-- C6: for a valid NewMarketOrder, NoMatch(id) is emitted exactly at the
recursive step that finds the opposite queue empty, and the market order
never rests: on a wholly empty opposite side the result is exactly
[Accepted, NoMatch(id)]; the own-side queue is untouched and the order's
id never appears in the opposite queue; at most one NoMatch is emitted and
when present it is the final event, with strictly less than the full
quantity traded; when absent the order traded exactly its full quantity
(each incomplete step recurses with the quantity reduced by the quantity
just filled). -/
theorem claim_C6_market_no_match (book : Orderbook) (order_id oa pa : Nat)
    (side : OrderSide) (qty : Rat) (ts now : Nat)
    (hoa : book.order_asset = oa) (hpa : book.price_asset = pa)
    (hq : 0 < qty) (hpos : PosInv book)
    (hfresh : ∀ e ∈ (oppQueue book side).entries, e.order.order_id ≠ order_id) :
    ((oppQueue book side).peekEntry = none →
      process_order book
          (OrderRequest.NewMarketOrder order_id oa pa side qty ts) now =
        (book, [Except.ok (Success.Accepted order_id oa OrderType.Market pa
            none qty side now),
          Except.error (Failed.NoMatch order_id)])) ∧
    ownQueue (process_order book
        (OrderRequest.NewMarketOrder order_id oa pa side qty ts) now).1 side
      = ownQueue book side ∧
    (∀ e ∈ (oppQueue (process_order book
        (OrderRequest.NewMarketOrder order_id oa pa side qty ts) now).1
        side).entries, e.order.order_id ≠ order_id) ∧
    List.count (Except.error (Failed.NoMatch order_id))
      (process_order book
        (OrderRequest.NewMarketOrder order_id oa pa side qty ts) now).2 ≤ 1 ∧
    (Except.error (Failed.NoMatch order_id) ∈ (process_order book
        (OrderRequest.NewMarketOrder order_id oa pa side qty ts) now).2 →
      ((process_order book
        (OrderRequest.NewMarketOrder order_id oa pa side qty ts) now).2).getLast?
        = some (Except.error (Failed.NoMatch order_id))) ∧
    ((((process_order book
        (OrderRequest.NewMarketOrder order_id oa pa side qty ts) now).2).getLast?
        = some (Except.error (Failed.NoMatch order_id)) ∧
      tradedQty order_id (process_order book
        (OrderRequest.NewMarketOrder order_id oa pa side qty ts) now).2 < qty) ∨
     (Except.error (Failed.NoMatch order_id) ∉ (process_order book
        (OrderRequest.NewMarketOrder order_id oa pa side qty ts) now).2 ∧
      tradedQty order_id (process_order book
        (OrderRequest.NewMarketOrder order_id oa pa side qty ts) now).2 = qty)) := by
  have hval : book.validator.validate
      (OrderRequest.NewMarketOrder order_id oa pa side qty ts) = Except.ok () := by
    unfold Orderbook.validator OrderRequestValidator.validate
      OrderRequestValidator.validate_market
    simp [hoa, hpa, not_le.mpr hq]
  have hred : process_order book
      (OrderRequest.NewMarketOrder order_id oa pa side qty ts) now =
      process_market_order book
        [Except.ok (Success.Accepted order_id oa OrderType.Market pa none qty
          side now)] order_id oa pa side qty now := by
    unfold process_order
    simp only [hval]
  rw [hred]
  have hnm0 : Except.error (Failed.NoMatch order_id) ∉
      ([Except.ok (Success.Accepted order_id oa OrderType.Market pa none qty
        side now)] : OrderProcessingResult) := by simp
  obtain ⟨h1, h2, h3⟩ := process_market_order_spec book
    [Except.ok (Success.Accepted order_id oa OrderType.Market pa none qty side
      now)] order_id oa pa side qty now hq hpos hfresh hnm0
  have htr0 : tradedQty order_id
      ([Except.ok (Success.Accepted order_id oa OrderType.Market pa none qty
        side now)] : OrderProcessingResult) = 0 := by simp [tradedQty]
  refine ⟨?_, h1, h2, ?_, ?_, ?_⟩
  · intro hempty
    rw [process_market_order_none book _ order_id oa pa side qty now hempty]
    rfl
  · rcases h3 with ⟨_, hc, _⟩ | ⟨hnotin, _⟩
    · rw [hc]
    · simp [List.count_eq_zero.mpr hnotin]
  · intro hmem
    rcases h3 with ⟨hl, _, _⟩ | ⟨hnotin, _⟩
    · exact hl
    · exact absurd hmem hnotin
  · rcases h3 with ⟨hl, _, hlt⟩ | ⟨hnotin, heq⟩
    · exact Or.inl ⟨hl, by rw [htr0] at hlt; linarith⟩
    · exact Or.inr ⟨hnotin, by rw [htr0] at heq; linarith⟩

/-- C6 witness: a market bid on an empty book produces exactly
[Accepted, NoMatch]. -/
theorem claim_C6_witness :
    process_order (Orderbook.new 1 2)
        (OrderRequest.NewMarketOrder 7 1 2 OrderSide.Bid 3 0) 5 =
      (Orderbook.new 1 2,
       [Except.ok (Success.Accepted 7 1 OrderType.Market 2 none 3 OrderSide.Bid 5),
        Except.error (Failed.NoMatch 7)]) :=
  (claim_C6_market_no_match (Orderbook.new 1 2) 7 1 2 OrderSide.Bid 3 0 5
    rfl rfl (by norm_num)
    ⟨fun e he => absurd he (List.not_mem_nil e),
     fun e he => absurd he (List.not_mem_nil e)⟩
    (fun e he => absurd he (List.not_mem_nil e))).1 rfl

lemma head_append_some {α : Type} (l1 l2 : List α) (x : α)
    (h : l1.head? = some x) : (l1 ++ l2).head? = some x := by
  cases l1 with
  | nil => simp at h
  | cons a rest => simpa using h

lemma not_error_mem_fills (rs : OrderProcessingResult) (f : Failed)
    (a b : Success) (h : Except.error f ∉ rs) :
    Except.error f ∉ rs ++ [Except.ok a, Except.ok b] := by
  intro hm
  rcases List.mem_append.mp hm with hm | hm
  · exact h hm
  · simp at hm

/-- Behaviour of the limit-order driver on a duplicate id: the own-side
queue is never changed, the head event survives, and a DuplicateOrderID
event can only appear as the final event. -/
lemma process_limit_order_dup (book : Orderbook)
    (results : OrderProcessingResult) (order_id oa pa : Nat) (side : OrderSide)
    (price qty : Rat) (ts now : Nat) :
    (ownQueue book side).isLive order_id = true →
    Except.error (Failed.DuplicateOrderID order_id) ∉ results →
    ownQueue (process_limit_order book results order_id oa pa side price qty
        ts now).1 side = ownQueue book side ∧
    (∀ x, results.head? = some x →
      ((process_limit_order book results order_id oa pa side price qty ts
        now).2).head? = some x) ∧
    (Except.error (Failed.DuplicateOrderID order_id) ∈
        (process_limit_order book results order_id oa pa side price qty ts
          now).2 →
      ((process_limit_order book results order_id oa pa side price qty ts
        now).2).getLast? =
        some (Except.error (Failed.DuplicateOrderID order_id))) ∧
    ((oppQueue book side).peekEntry = none →
      process_limit_order book results order_id oa pa side price qty ts now =
        (book, results ++ [Except.error (Failed.DuplicateOrderID order_id)])) := by
  induction book, results, order_id, oa, pa, side, price, qty, ts, now
    using process_limit_order.induct with
  | case1 book results order_id oa pa side price qty ts now opp hpk hov step hc =>
    have hstep : step = order_matching book results opp.order order_id oa pa
      OrderType.Limit side qty now := rfl
    rw [hstep] at hc
    intro hlive hdup
    rw [process_limit_order_overlap_complete book results order_id oa pa side
      price qty ts now opp hpk hov hc]
    have hres_sub : ∃ a b, (order_matching book results opp.order order_id oa
        pa OrderType.Limit side qty now).results =
        results ++ [Except.ok a, Except.ok b] := by
      by_cases h1 : qty < opp.order.qty
      · rw [order_matching_case_lt book results opp.order order_id oa pa
          OrderType.Limit side qty now h1]
        exact ⟨_, _, rfl⟩
      · by_cases h2 : opp.order.qty < qty
        · rw [order_matching_case_gt book results opp.order order_id oa pa
            OrderType.Limit side qty now h2]
          exact ⟨_, _, rfl⟩
        · rw [order_matching_case_eq book results opp.order order_id oa pa
            OrderType.Limit side qty now h1 h2]
          exact ⟨_, _, rfl⟩
    obtain ⟨a, b, hres⟩ := hres_sub
    refine ⟨order_matching_own book results opp.order order_id oa pa
      OrderType.Limit side qty now, ?_, ?_, ?_⟩
    · intro x hx
      rw [hres]
      exact head_append_some _ _ _ hx
    · intro hmem
      rw [hres] at hmem
      exact absurd hmem (not_error_mem_fills results _ a b hdup)
    · intro hempty
      simp [hempty] at hpk
  | case2 book results order_id oa pa side price qty ts now opp hpk hov step hc ih =>
    have hstep : step = order_matching book results opp.order order_id oa pa
      OrderType.Limit side qty now := rfl
    rw [hstep] at hc ih
    intro hlive hdup
    have hfalse : (order_matching book results opp.order order_id oa pa
        OrderType.Limit side qty now).complete = false := by
      simpa using hc
    have hgt : opp.order.qty < qty :=
      (order_matching_complete_false_iff book results opp.order order_id oa pa
        OrderType.Limit side qty now).mp hfalse
    rw [process_limit_order_overlap_incomplete book results order_id oa pa
      side price qty ts now opp hpk hov hfalse]
    have hres : (order_matching book results opp.order order_id oa pa
        OrderType.Limit side qty now).results =
        results ++ [Except.ok (Success.PartiallyFilled order_id side
          OrderType.Limit opp.order.price opp.order.qty now),
          Except.ok (Success.Filled opp.order.order_id opp.order.side
            OrderType.Limit opp.order.price opp.order.qty now)] := by
      rw [order_matching_case_gt book results opp.order order_id oa pa
        OrderType.Limit side qty now hgt]
    have hlive' : (ownQueue (order_matching book results opp.order order_id
        oa pa OrderType.Limit side qty now).book side).isLive order_id = true := by
      rw [order_matching_own]
      exact hlive
    have hdup' : Except.error (Failed.DuplicateOrderID order_id) ∉
        (order_matching book results opp.order order_id oa pa
          OrderType.Limit side qty now).results := by
      rw [hres]
      exact not_error_mem_fills results _ _ _ hdup
    obtain ⟨ih1, ih2, ih3, _⟩ := ih hlive' hdup'
    refine ⟨by rw [ih1, order_matching_own], ?_, ih3, ?_⟩
    · intro x hx
      refine ih2 x ?_
      rw [hres]
      exact head_append_some _ _ _ hx
    · intro hempty
      simp [hempty] at hpk
  | case3 book results order_id oa pa side price qty ts now opp hpk hov =>
    intro hlive hdup
    rw [process_limit_order_no_overlap book results order_id oa pa side price
      qty ts now opp hpk (by simpa using hov)]
    rw [store_new_limit_order_dup book results order_id oa pa side price qty
      ts hlive]
    refine ⟨rfl, ?_, ?_, ?_⟩
    · intro x hx
      exact head_append_some _ _ _ hx
    · intro _
      show (results ++ [Except.error (Failed.DuplicateOrderID order_id)]).getLast?
        = some (Except.error (Failed.DuplicateOrderID order_id))
      exact List.getLast?_concat _
    · intro hempty
      simp [hempty] at hpk
  | case4 book results order_id oa pa side price qty ts now hpk =>
    intro hlive hdup
    rw [process_limit_order_none book results order_id oa pa side price qty ts
      now hpk]
    rw [store_new_limit_order_dup book results order_id oa pa side price qty
      ts hlive]
    refine ⟨rfl, ?_, ?_, fun _ => rfl⟩
    · intro x hx
      exact head_append_some _ _ _ hx
    · intro _
      show (results ++ [Except.error (Failed.DuplicateOrderID order_id)]).getLast?
        = some (Except.error (Failed.DuplicateOrderID order_id))
      exact List.getLast?_concat _

/-- C8: for a valid NewLimitOrder whose id is already live on its own
side (so any attempted insert fails), the event vector starts with the
Accepted event; whenever a DuplicateOrderID(id) event is present it is
the final event with nothing after it; the own-side queue is unchanged by
the call; and with an empty opposite side the result is exactly
[Accepted, DuplicateOrderID(id)]. -/
theorem claim_C8_duplicate_id (book : Orderbook) (order_id oa pa : Nat)
    (side : OrderSide) (price qty : Rat) (ts now : Nat)
    (hoa : book.order_asset = oa) (hpa : book.price_asset = pa)
    (hp : 0 < price) (hq : 0 < qty)
    (hlive : (ownQueue book side).isLive order_id = true) :
    ((process_order book
        (OrderRequest.NewLimitOrder order_id oa pa side price qty ts) now).2).head?
      = some (Except.ok (Success.Accepted order_id oa OrderType.Limit pa
          (some price) qty side now)) ∧
    ownQueue (process_order book
        (OrderRequest.NewLimitOrder order_id oa pa side price qty ts) now).1
        side = ownQueue book side ∧
    (Except.error (Failed.DuplicateOrderID order_id) ∈ (process_order book
        (OrderRequest.NewLimitOrder order_id oa pa side price qty ts) now).2 →
      ((process_order book
        (OrderRequest.NewLimitOrder order_id oa pa side price qty ts) now).2).getLast?
        = some (Except.error (Failed.DuplicateOrderID order_id))) ∧
    ((oppQueue book side).peekEntry = none →
      process_order book
          (OrderRequest.NewLimitOrder order_id oa pa side price qty ts) now =
        (book, [Except.ok (Success.Accepted order_id oa OrderType.Limit pa
            (some price) qty side now),
          Except.error (Failed.DuplicateOrderID order_id)])) := by
  have hval : book.validator.validate
      (OrderRequest.NewLimitOrder order_id oa pa side price qty ts) =
      Except.ok () := by
    unfold Orderbook.validator OrderRequestValidator.validate
      OrderRequestValidator.validate_limit
    simp [hoa, hpa, not_le.mpr hp, not_le.mpr hq]
  have hred : process_order book
      (OrderRequest.NewLimitOrder order_id oa pa side price qty ts) now =
      process_limit_order book
        [Except.ok (Success.Accepted order_id oa OrderType.Limit pa
          (some price) qty side now)] order_id oa pa side price qty ts now := by
    unfold process_order
    simp only [hval]
  rw [hred]
  obtain ⟨h1, h2, h3, h4⟩ := process_limit_order_dup book
    [Except.ok (Success.Accepted order_id oa OrderType.Limit pa (some price)
      qty side now)] order_id oa pa side price qty ts now hlive (by simp)
  refine ⟨h2 _ rfl, h1, h3, ?_⟩
  intro hempty
  rw [h4 hempty]
  rfl

/-- C8 witness: an incoming limit bid whose id 7 is already resting on the
bid side, with an empty ask side. -/
theorem claim_C8_witness :
    process_order
        ⟨1, 2, ⟨OrderSide.Bid, [⟨⟨7, 1, 2, OrderSide.Bid, 10, 1⟩, 0⟩]⟩,
          ⟨OrderSide.Ask, []⟩⟩
        (OrderRequest.NewLimitOrder 7 1 2 OrderSide.Bid 11 3 4) 5 =
      (⟨1, 2, ⟨OrderSide.Bid, [⟨⟨7, 1, 2, OrderSide.Bid, 10, 1⟩, 0⟩]⟩,
          ⟨OrderSide.Ask, []⟩⟩,
       [Except.ok (Success.Accepted 7 1 OrderType.Limit 2 (some 11) 3
          OrderSide.Bid 5),
        Except.error (Failed.DuplicateOrderID 7)]) :=
  (claim_C8_duplicate_id
    ⟨1, 2, ⟨OrderSide.Bid, [⟨⟨7, 1, 2, OrderSide.Bid, 10, 1⟩, 0⟩]⟩,
      ⟨OrderSide.Ask, []⟩⟩
    7 1 2 OrderSide.Bid 11 3 4 5 rfl rfl (by norm_num) (by norm_num)
    (by decide)).2.2.2 rfl

/-! ## Quantity bookkeeping for conservation (towards C2) -/

/-- The intent's order id (`order_id` for new orders, `id` for amend and
cancel). -/
def reqId : OrderRequest → Nat
  | OrderRequest.NewMarketOrder order_id _ _ _ _ _ => order_id
  | OrderRequest.NewLimitOrder order_id _ _ _ _ _ _ => order_id
  | OrderRequest.AmendOrder id _ _ _ _ => id
  | OrderRequest.CancelOrder id _ => id

/-- Whether the intent is a new (market or limit) order. -/
def isNewOrder : OrderRequest → Prop
  | OrderRequest.NewMarketOrder _ _ _ _ _ _ => True
  | OrderRequest.NewLimitOrder _ _ _ _ _ _ _ => True
  | _ => False

lemma qtySum_popQ (q : OrderQueue) (e : QEntry) (h : q.peekEntry = some e) :
    qtySum q.popQ.entries = qtySum q.entries - e.order.qty := by
  obtain ⟨i, _, hg, herase⟩ := popQ_entries q e h
  rw [herase]
  exact qtySum_eraseIdx _ i e hg

lemma qtySum_modify (q : OrderQueue) (e : QEntry) (o : Order)
    (h : q.peekEntry = some e) (hid : e.order.order_id = o.order_id) :
    qtySum (q.modify_current_order o).entries =
      qtySum q.entries - e.order.qty + o.qty := by
  obtain ⟨i, _, hg, hset⟩ := modify_entries q e o h hid
  rw [hset]
  exact qtySum_set _ i e _ hg

lemma bookQty_split (b : Orderbook) (side : OrderSide) :
    bookQty b = qtySum (ownQueue b side).entries +
      qtySum (oppQueue b side).entries := by
  cases side
  · rfl
  · show qtySum b.bid_queue.entries + qtySum b.ask_queue.entries =
      qtySum b.ask_queue.entries + qtySum b.bid_queue.entries
    ring

lemma bookQty_setOpp (b : Orderbook) (side : OrderSide) (q : OrderQueue) :
    bookQty (setOpp b side q) =
      qtySum (ownQueue b side).entries + qtySum q.entries := by
  cases side
  · rfl
  · show qtySum q.entries + qtySum b.ask_queue.entries =
      qtySum b.ask_queue.entries + qtySum q.entries
    ring

lemma bookQty_setOwn (b : Orderbook) (side : OrderSide) (q : OrderQueue) :
    bookQty (setOwn b side q) =
      qtySum q.entries + qtySum (oppQueue b side).entries := by
  cases side
  · rfl
  · show qtySum b.bid_queue.entries + qtySum q.entries =
      qtySum q.entries + qtySum b.bid_queue.entries
    ring

lemma bookIdQty_split (b : Orderbook) (side : OrderSide) (id : Nat) :
    bookIdQty b id = idQty id (ownQueue b side).entries +
      idQty id (oppQueue b side).entries := by
  cases side
  · rfl
  · show idQty id b.bid_queue.entries + idQty id b.ask_queue.entries =
      idQty id b.ask_queue.entries + idQty id b.bid_queue.entries
    ring

/-- Book quantity change of one matching step: it always decreases by the
quantity traded at that step. -/
lemma order_matching_bookQty (book : Orderbook)
    (results : OrderProcessingResult) (opp : QEntry) (order_id oa pa : Nat)
    (t : OrderType) (side : OrderSide) (qty : Rat) (now : Nat)
    (hpk : (oppQueue book side).peekEntry = some opp) :
    (qty < opp.order.qty →
      bookQty (order_matching book results opp.order order_id oa pa t side
        qty now).book = bookQty book - qty) ∧
    (¬ qty < opp.order.qty →
      bookQty (order_matching book results opp.order order_id oa pa t side
        qty now).book = bookQty book - opp.order.qty) := by
  constructor
  · intro h1
    rw [order_matching_case_lt book results opp.order order_id oa pa t side
      qty now h1]
    rw [bookQty_setOpp]
    rw [qtySum_modify (oppQueue book side) opp
      ⟨opp.order.order_id, oa, pa, opp.order.side, opp.order.price,
        opp.order.qty - qty⟩ hpk rfl]
    rw [bookQty_split book side]
    ring
  · intro h1
    by_cases h2 : opp.order.qty < qty
    · rw [order_matching_case_gt book results opp.order order_id oa pa t side
        qty now h2]
      rw [bookQty_setOpp]
      rw [qtySum_popQ (oppQueue book side) opp hpk]
      rw [bookQty_split book side]
      ring
    · rw [order_matching_case_eq book results opp.order order_id oa pa t side
        qty now h1 h2]
      rw [bookQty_setOpp]
      rw [qtySum_popQ (oppQueue book side) opp hpk]
      rw [bookQty_split book side]
      ring

/-- Conservation along the market-order recursion: the book quantity drops
by exactly the traded quantity reported for the (fresh) incoming id. -/
lemma process_market_order_conserve (book : Orderbook)
    (results : OrderProcessingResult) (order_id oa pa : Nat) (side : OrderSide)
    (qty : Rat) (now : Nat) :
    (∀ e ∈ (oppQueue book side).entries, e.order.order_id ≠ order_id) →
    bookQty (process_market_order book results order_id oa pa side qty now).1
        + tradedQty order_id
          (process_market_order book results order_id oa pa side qty now).2
      = bookQty book + tradedQty order_id results := by
  induction book, results, order_id, oa, pa, side, qty, now
    using process_market_order.induct with
  | case1 book results order_id oa pa side qty now opp hpk step hc =>
    have hstep : step = order_matching book results opp.order order_id oa pa
      OrderType.Market side qty now := rfl
    rw [hstep] at hc
    intro hfresh
    rw [process_market_order_complete book results order_id oa pa side qty now
      opp hpk hc]
    have hoppid : opp.order.order_id ≠ order_id :=
      hfresh opp (peekEntry_spec _ _ hpk).1
    have hngt : ¬ opp.order.qty < qty := by
      intro hgt
      rw [(order_matching_complete_false_iff book results opp.order order_id
        oa pa OrderType.Market side qty now).mpr hgt] at hc
      cases hc
    by_cases h1 : qty < opp.order.qty
    · rw [(order_matching_bookQty book results opp order_id oa pa
        OrderType.Market side qty now hpk).1 h1]
      rw [order_matching_case_lt book results opp.order order_id oa pa
        OrderType.Market side qty now h1]
      rw [tradedQty_step_lt results order_id opp.order.order_id side
        opp.order.side OrderType.Market opp.order.price qty now hoppid]
      ring
    · have heq : qty = opp.order.qty := le_antisymm (not_lt.mp hngt) (not_lt.mp h1)
      rw [(order_matching_bookQty book results opp order_id oa pa
        OrderType.Market side qty now hpk).2 h1]
      rw [order_matching_case_eq book results opp.order order_id oa pa
        OrderType.Market side qty now h1 hngt]
      rw [tradedQty_step_eq results order_id opp.order.order_id side
        opp.order.side OrderType.Market opp.order.price qty now hoppid]
      rw [heq]
      ring
  | case2 book results order_id oa pa side qty now opp hpk step hc ih =>
    have hstep : step = order_matching book results opp.order order_id oa pa
      OrderType.Market side qty now := rfl
    rw [hstep] at hc ih
    intro hfresh
    have hfalse : (order_matching book results opp.order order_id oa pa
        OrderType.Market side qty now).complete = false := by
      simpa using hc
    have hgt : opp.order.qty < qty :=
      (order_matching_complete_false_iff book results opp.order order_id oa pa
        OrderType.Market side qty now).mp hfalse
    have hoppid : opp.order.order_id ≠ order_id :=
      hfresh opp (peekEntry_spec _ _ hpk).1
    rw [process_market_order_incomplete book results order_id oa pa side qty
      now opp hpk hfalse]
    have hbq : bookQty (order_matching book results opp.order order_id oa pa
        OrderType.Market side qty now).book = bookQty book - opp.order.qty :=
      (order_matching_bookQty book results opp order_id oa pa OrderType.Market
        side qty now hpk).2 (by linarith)
    have htr : tradedQty order_id (order_matching book results opp.order
        order_id oa pa OrderType.Market side qty now).results =
        tradedQty order_id results + opp.order.qty := by
      rw [order_matching_case_gt book results opp.order order_id oa pa
        OrderType.Market side qty now hgt]
      exact tradedQty_step_gt results order_id opp.order.order_id side
        opp.order.side OrderType.Market opp.order.price opp.order.qty now hoppid
    have := ih (order_matching_opp_fresh book results opp order_id oa pa
      OrderType.Market side qty now order_id hfresh)
    rw [hbq, htr] at this
    linarith
  | case3 book results order_id oa pa side qty now hpk =>
    intro hfresh
    rw [process_market_order_none book results order_id oa pa side qty now hpk]
    rw [tradedQty_noMatch]

/-- The market-order driver never touches the own queue and never adds the
given fresh id to the opposite queue (no positivity needed). -/
lemma process_market_order_queues (book : Orderbook)
    (results : OrderProcessingResult) (order_id oa pa : Nat) (side : OrderSide)
    (qty : Rat) (now : Nat) (id : Nat) :
    (∀ e ∈ (oppQueue book side).entries, e.order.order_id ≠ id) →
    ownQueue (process_market_order book results order_id oa pa side qty now).1
        side = ownQueue book side ∧
    (∀ e ∈ (oppQueue (process_market_order book results order_id oa pa side
        qty now).1 side).entries, e.order.order_id ≠ id) := by
  induction book, results, order_id, oa, pa, side, qty, now
    using process_market_order.induct with
  | case1 book results order_id oa pa side qty now opp hpk step hc =>
    have hstep : step = order_matching book results opp.order order_id oa pa
      OrderType.Market side qty now := rfl
    rw [hstep] at hc
    intro hfresh
    rw [process_market_order_complete book results order_id oa pa side qty now
      opp hpk hc]
    exact ⟨order_matching_own book results opp.order order_id oa pa
      OrderType.Market side qty now,
      order_matching_opp_fresh book results opp order_id oa pa
        OrderType.Market side qty now id hfresh⟩
  | case2 book results order_id oa pa side qty now opp hpk step hc ih =>
    have hstep : step = order_matching book results opp.order order_id oa pa
      OrderType.Market side qty now := rfl
    rw [hstep] at hc ih
    intro hfresh
    have hfalse : (order_matching book results opp.order order_id oa pa
        OrderType.Market side qty now).complete = false := by
      simpa using hc
    rw [process_market_order_incomplete book results order_id oa pa side qty
      now opp hpk hfalse]
    obtain ⟨ih1, ih2⟩ := ih (order_matching_opp_fresh book results opp
      order_id oa pa OrderType.Market side qty now id hfresh)
    exact ⟨by rw [ih1, order_matching_own], ih2⟩
  | case3 book results order_id oa pa side qty now hpk =>
    intro hfresh
    rw [process_market_order_none book results order_id oa pa side qty now hpk]
    exact ⟨rfl, hfresh⟩

/-- Conservation along the limit-order recursion: the book quantity after,
plus everything traded for the (fresh) incoming id, equals the book
quantity before plus the quantity that ended up resting under that id. -/
lemma process_limit_order_conserve (book : Orderbook)
    (results : OrderProcessingResult) (order_id oa pa : Nat) (side : OrderSide)
    (price qty : Rat) (ts now : Nat) :
    (∀ e ∈ (oppQueue book side).entries, e.order.order_id ≠ order_id) →
    (∀ e ∈ (ownQueue book side).entries, e.order.order_id ≠ order_id) →
    bookQty (process_limit_order book results order_id oa pa side price qty ts
        now).1
      + tradedQty order_id (process_limit_order book results order_id oa pa
          side price qty ts now).2
      = bookQty book + tradedQty order_id results
        + bookIdQty (process_limit_order book results order_id oa pa side
            price qty ts now).1 order_id := by
  induction book, results, order_id, oa, pa, side, price, qty, ts, now
    using process_limit_order.induct with
  | case1 book results order_id oa pa side price qty ts now opp hpk hov step hc =>
    have hstep : step = order_matching book results opp.order order_id oa pa
      OrderType.Limit side qty now := rfl
    rw [hstep] at hc
    intro hfr_opp hfr_own
    rw [process_limit_order_overlap_complete book results order_id oa pa side
      price qty ts now opp hpk hov hc]
    have hoppid : opp.order.order_id ≠ order_id :=
      hfr_opp opp (peekEntry_spec _ _ hpk).1
    have hngt : ¬ opp.order.qty < qty := by
      intro hgt
      rw [(order_matching_complete_false_iff book results opp.order order_id
        oa pa OrderType.Limit side qty now).mpr hgt] at hc
      cases hc
    have hrest : bookIdQty (order_matching book results opp.order order_id oa
        pa OrderType.Limit side qty now).book order_id = 0 := by
      rw [bookIdQty_split _ side]
      rw [idQty_eq_zero _ _ (by
        rw [order_matching_own]
        exact hfr_own)]
      rw [idQty_eq_zero _ _ (order_matching_opp_fresh book results opp
        order_id oa pa OrderType.Limit side qty now order_id hfr_opp)]
      ring
    rw [hrest]
    by_cases h1 : qty < opp.order.qty
    · rw [(order_matching_bookQty book results opp order_id oa pa
        OrderType.Limit side qty now hpk).1 h1]
      rw [order_matching_case_lt book results opp.order order_id oa pa
        OrderType.Limit side qty now h1]
      rw [tradedQty_step_lt results order_id opp.order.order_id side
        opp.order.side OrderType.Limit opp.order.price qty now hoppid]
      ring
    · have heq : qty = opp.order.qty :=
        le_antisymm (not_lt.mp hngt) (not_lt.mp h1)
      rw [(order_matching_bookQty book results opp order_id oa pa
        OrderType.Limit side qty now hpk).2 h1]
      rw [order_matching_case_eq book results opp.order order_id oa pa
        OrderType.Limit side qty now h1 hngt]
      rw [tradedQty_step_eq results order_id opp.order.order_id side
        opp.order.side OrderType.Limit opp.order.price qty now hoppid]
      rw [heq]
      ring
  | case2 book results order_id oa pa side price qty ts now opp hpk hov step hc ih =>
    have hstep : step = order_matching book results opp.order order_id oa pa
      OrderType.Limit side qty now := rfl
    rw [hstep] at hc ih
    intro hfr_opp hfr_own
    have hfalse : (order_matching book results opp.order order_id oa pa
        OrderType.Limit side qty now).complete = false := by
      simpa using hc
    have hgt : opp.order.qty < qty :=
      (order_matching_complete_false_iff book results opp.order order_id oa pa
        OrderType.Limit side qty now).mp hfalse
    have hoppid : opp.order.order_id ≠ order_id :=
      hfr_opp opp (peekEntry_spec _ _ hpk).1
    rw [process_limit_order_overlap_incomplete book results order_id oa pa
      side price qty ts now opp hpk hov hfalse]
    have hbq : bookQty (order_matching book results opp.order order_id oa pa
        OrderType.Limit side qty now).book = bookQty book - opp.order.qty :=
      (order_matching_bookQty book results opp order_id oa pa OrderType.Limit
        side qty now hpk).2 (by linarith)
    have htr : tradedQty order_id (order_matching book results opp.order
        order_id oa pa OrderType.Limit side qty now).results =
        tradedQty order_id results + opp.order.qty := by
      rw [order_matching_case_gt book results opp.order order_id oa pa
        OrderType.Limit side qty now hgt]
      exact tradedQty_step_gt results order_id opp.order.order_id side
        opp.order.side OrderType.Limit opp.order.price opp.order.qty now hoppid
    have := ih (order_matching_opp_fresh book results opp order_id oa pa
        OrderType.Limit side qty now order_id hfr_opp)
      (by
        rw [order_matching_own]
        exact hfr_own)
    rw [hbq, htr] at this
    linarith
  | case3 book results order_id oa pa side price qty ts now opp hpk hov =>
    intro hfr_opp hfr_own
    rw [process_limit_order_no_overlap book results order_id oa pa side price
      qty ts now opp hpk (by simpa using hov)]
    cases hl : (ownQueue book side).isLive order_id with
    | true =>
      obtain ⟨e, he, hid⟩ := (isLive_iff _ _).mp hl
      exact absurd hid (hfr_own e he)
    | false =>
      rw [store_new_limit_order_fresh book results order_id oa pa side price
        qty ts hl]
      rw [bookQty_setOwn]
      show qtySum ((ownQueue book side).entries ++ [⟨⟨order_id, oa, pa, side,
        price, qty⟩, ts⟩]) + _ + _ = _
      rw [qtySum_append]
      rw [bookIdQty_split _ side, setOwn_own, setOwn_opp]
      show _ = _ + _ + (idQty order_id ((ownQueue book side).entries ++
        [⟨⟨order_id, oa, pa, side, price, qty⟩, ts⟩]) + _)
      rw [idQty_append, idQty_eq_zero _ _ hfr_own,
        idQty_eq_zero _ _ hfr_opp]
      rw [bookQty_split book side]
      simp [qtySum, idQty]
      ring
  | case4 book results order_id oa pa side price qty ts now hpk =>
    intro hfr_opp hfr_own
    rw [process_limit_order_none book results order_id oa pa side price qty ts
      now hpk]
    cases hl : (ownQueue book side).isLive order_id with
    | true =>
      obtain ⟨e, he, hid⟩ := (isLive_iff _ _).mp hl
      exact absurd hid (hfr_own e he)
    | false =>
      rw [store_new_limit_order_fresh book results order_id oa pa side price
        qty ts hl]
      rw [bookQty_setOwn]
      show qtySum ((ownQueue book side).entries ++ [⟨⟨order_id, oa, pa, side,
        price, qty⟩, ts⟩]) + _ + _ = _
      rw [qtySum_append]
      rw [bookIdQty_split _ side, setOwn_own, setOwn_opp]
      show _ = _ + _ + (idQty order_id ((ownQueue book side).entries ++
        [⟨⟨order_id, oa, pa, side, price, qty⟩, ts⟩]) + _)
      rw [idQty_append, idQty_eq_zero _ _ hfr_own,
        idQty_eq_zero _ _ hfr_opp]
      rw [bookQty_split book side]
      simp [qtySum, idQty]
      ring

/-- C2 counterexample: a CancelOrder intent removes the cancelled order's
quantity from the book although it matches nothing and rests nothing, so
the claim's conservation equation fails for it as stated over every
intent. -/
theorem claim_C2_counterexample :
    process_order
        ⟨1, 2, ⟨OrderSide.Bid, [⟨⟨1, 1, 2, OrderSide.Bid, 10, 5⟩, 0⟩]⟩,
          ⟨OrderSide.Ask, []⟩⟩
        (OrderRequest.CancelOrder 1 OrderSide.Bid) 3 =
      (⟨1, 2, ⟨OrderSide.Bid, []⟩, ⟨OrderSide.Ask, []⟩⟩,
       [Except.ok (Success.Cancelled 1 3)]) ∧
    ¬ (bookQty (process_order
        ⟨1, 2, ⟨OrderSide.Bid, [⟨⟨1, 1, 2, OrderSide.Bid, 10, 5⟩, 0⟩]⟩,
          ⟨OrderSide.Ask, []⟩⟩
        (OrderRequest.CancelOrder 1 OrderSide.Bid) 3).1 =
      bookQty ⟨1, 2, ⟨OrderSide.Bid, [⟨⟨1, 1, 2, OrderSide.Bid, 10, 5⟩, 0⟩]⟩,
          ⟨OrderSide.Ask, []⟩⟩
        - tradedQty 1 (process_order
            ⟨1, 2, ⟨OrderSide.Bid, [⟨⟨1, 1, 2, OrderSide.Bid, 10, 5⟩, 0⟩]⟩,
              ⟨OrderSide.Ask, []⟩⟩
            (OrderRequest.CancelOrder 1 OrderSide.Bid) 3).2
        + bookIdQty (process_order
            ⟨1, 2, ⟨OrderSide.Bid, [⟨⟨1, 1, 2, OrderSide.Bid, 10, 5⟩, 0⟩]⟩,
              ⟨OrderSide.Ask, []⟩⟩
            (OrderRequest.CancelOrder 1 OrderSide.Bid) 3).1 1) := by
  have hrun : process_order
      ⟨1, 2, ⟨OrderSide.Bid, [⟨⟨1, 1, 2, OrderSide.Bid, 10, 5⟩, 0⟩]⟩,
        ⟨OrderSide.Ask, []⟩⟩
      (OrderRequest.CancelOrder 1 OrderSide.Bid) 3 =
      (⟨1, 2, ⟨OrderSide.Bid, []⟩, ⟨OrderSide.Ask, []⟩⟩,
       [Except.ok (Success.Cancelled 1 3)]) := rfl
  refine ⟨hrun, ?_⟩
  rw [hrun]
  norm_num [bookQty, qtySum, tradedQty, bookIdQty, idQty]

/-- C2 (amended): conservation holds for every new-order intent with a
fresh id — the live quantity after the call equals the live quantity
before, minus the quantity reported in the aggressor-side
Filled/PartiallyFilled events, plus the residual quantity resting under
the intent's id.  (Cancel and Amend intents change the live sum directly,
with no traded events, and are excluded.) -/
theorem claim_C2_conservation (book : Orderbook) (order : OrderRequest)
    (now : Nat) (hnew : isNewOrder order)
    (hfresh : ∀ e ∈ book.bid_queue.entries ++ book.ask_queue.entries,
      e.order.order_id ≠ reqId order) :
    bookQty (process_order book order now).1 =
      bookQty book
        - tradedQty (reqId order) (process_order book order now).2
        + bookIdQty (process_order book order now).1 (reqId order) := by
  have hfr_bid : ∀ e ∈ book.bid_queue.entries, e.order.order_id ≠ reqId order :=
    fun e he => hfresh e (List.mem_append.mpr (Or.inl he))
  have hfr_ask : ∀ e ∈ book.ask_queue.entries, e.order.order_id ≠ reqId order :=
    fun e he => hfresh e (List.mem_append.mpr (Or.inr he))
  have hfr_opp : ∀ side, ∀ e ∈ (oppQueue book side).entries,
      e.order.order_id ≠ reqId order := by
    intro side
    cases side
    · exact hfr_ask
    · exact hfr_bid
  have hfr_own : ∀ side, ∀ e ∈ (ownQueue book side).entries,
      e.order.order_id ≠ reqId order := by
    intro side
    cases side
    · exact hfr_bid
    · exact hfr_ask
  have hidq0 : bookIdQty book (reqId order) = 0 := by
    unfold bookIdQty
    rw [idQty_eq_zero _ _ hfr_bid, idQty_eq_zero _ _ hfr_ask]
    ring
  cases order with
  | NewMarketOrder order_id oa pa side qty ts =>
    simp only [reqId] at hfr_opp hfr_own hidq0 ⊢
    unfold process_order
    rcases hval : book.validator.validate
        (OrderRequest.NewMarketOrder order_id oa pa side qty ts) with reason | u
    · simp only [hval]
      show bookQty book = bookQty book - tradedQty _ _ + bookIdQty book _
      rw [hidq0]
      simp [tradedQty]
    · cases u
      simp only [hval]
      have hcons := process_market_order_conserve book
        [Except.ok (Success.Accepted order_id oa OrderType.Market pa none qty
          side now)] order_id oa pa side qty now (hfr_opp side)
      have htr0 : tradedQty order_id
          ([Except.ok (Success.Accepted order_id oa OrderType.Market pa none
            qty side now)] : OrderProcessingResult) = 0 := by
        simp [tradedQty]
      rw [htr0] at hcons
      obtain ⟨hown, hopp⟩ := process_market_order_queues book
        [Except.ok (Success.Accepted order_id oa OrderType.Market pa none qty
          side now)] order_id oa pa side qty now order_id (hfr_opp side)
      have hrest : bookIdQty (process_market_order book
          [Except.ok (Success.Accepted order_id oa OrderType.Market pa none
            qty side now)] order_id oa pa side qty now).1 order_id = 0 := by
        rw [bookIdQty_split _ side]
        rw [idQty_eq_zero _ _ (by
          rw [hown]
          exact hfr_own side)]
        rw [idQty_eq_zero _ _ hopp]
        ring
      rw [hrest]
      linarith
  | NewLimitOrder order_id oa pa side price qty ts =>
    simp only [reqId] at hfr_opp hfr_own hidq0 ⊢
    unfold process_order
    rcases hval : book.validator.validate
        (OrderRequest.NewLimitOrder order_id oa pa side price qty ts) with reason | u
    · simp only [hval]
      show bookQty book = bookQty book - tradedQty _ _ + bookIdQty book _
      rw [hidq0]
      simp [tradedQty]
    · cases u
      simp only [hval]
      have hcons := process_limit_order_conserve book
        [Except.ok (Success.Accepted order_id oa OrderType.Limit pa
          (some price) qty side now)] order_id oa pa side price qty ts now
        (hfr_opp side) (hfr_own side)
      have htr0 : tradedQty order_id
          ([Except.ok (Success.Accepted order_id oa OrderType.Limit pa
            (some price) qty side now)] : OrderProcessingResult) = 0 := by
        simp [tradedQty]
      rw [htr0] at hcons
      linarith
  | AmendOrder id side price qty ts => cases hnew
  | CancelOrder id side => cases hnew

/-- C2 witness: conservation for a limit bid resting on an empty book. -/
theorem claim_C2_witness :
    bookQty (process_order (Orderbook.new 1 2)
        (OrderRequest.NewLimitOrder 7 1 2 OrderSide.Bid 10 5 0) 3).1 =
      bookQty (Orderbook.new 1 2)
        - tradedQty 7 (process_order (Orderbook.new 1 2)
            (OrderRequest.NewLimitOrder 7 1 2 OrderSide.Bid 10 5 0) 3).2
        + bookIdQty (process_order (Orderbook.new 1 2)
            (OrderRequest.NewLimitOrder 7 1 2 OrderSide.Bid 10 5 0) 3).1 7 :=
  claim_C2_conservation (Orderbook.new 1 2)
    (OrderRequest.NewLimitOrder 7 1 2 OrderSide.Bid 10 5 0) 3 trivial
    (fun e he => absurd he (List.not_mem_nil e))

/-! ## Spread-invariant machinery (towards C4) -/

/-- Every entry of `q'` carries the price of some entry of `q` (prices are
not created by the operation). -/
def PriceSub (q' q : OrderQueue) : Prop :=
  ∀ e' ∈ q'.entries, ∃ e ∈ q.entries, e'.order.price = e.order.price

lemma priceSub_refl (q : OrderQueue) : PriceSub q q :=
  fun e' he' => ⟨e', he', rfl⟩

lemma priceSub_popQ (q : OrderQueue) : PriceSub q.popQ q :=
  fun e' he' => ⟨e', popQ_sub q he', rfl⟩

lemma priceSub_modify (q : OrderQueue) (o : Order)
    (hp : ∃ e0 ∈ q.entries, o.price = e0.order.price) :
    PriceSub (q.modify_current_order o) q := by
  intro e' he'
  rcases modify_mem q o e' he' with hm | hm
  · exact ⟨e', hm, rfl⟩
  · obtain ⟨e0, he0, hp0⟩ := hp
    exact ⟨e0, he0, by rw [hm]; exact hp0⟩

lemma spreadInv_priceSub (b : Orderbook) (qb qa : OrderQueue)
    (hinv : SpreadInv b) (hb : PriceSub qb b.bid_queue)
    (ha : PriceSub qa b.ask_queue) :
    SpreadInv ⟨b.order_asset, b.price_asset, qb, qa⟩ := by
  intro eb heb ea hea
  obtain ⟨eb0, heb0, hpb⟩ := hb eb heb
  obtain ⟨ea0, hea0, hpa⟩ := ha ea hea
  rw [hpb, hpa]
  exact hinv eb0 heb0 ea0 hea0

lemma setOpp_as_mk (b : Orderbook) (side : OrderSide) (q : OrderQueue) :
    (setOpp b side q =
      ⟨b.order_asset, b.price_asset, b.bid_queue, q⟩ ∧ side = OrderSide.Bid) ∨
    (setOpp b side q =
      ⟨b.order_asset, b.price_asset, q, b.ask_queue⟩ ∧ side = OrderSide.Ask) := by
  cases side
  · exact Or.inl ⟨rfl, rfl⟩
  · exact Or.inr ⟨rfl, rfl⟩

/-- One matching step preserves the spread invariant: it only removes the
opposite best or rewrites its quantity at an existing price. -/
lemma order_matching_spread (book : Orderbook)
    (results : OrderProcessingResult) (opp : QEntry) (order_id oa pa : Nat)
    (t : OrderType) (side : OrderSide) (qty : Rat) (now : Nat)
    (hpk : (oppQueue book side).peekEntry = some opp)
    (hinv : SpreadInv book) :
    SpreadInv (order_matching book results opp.order order_id oa pa t side qty
      now).book := by
  have hoppmem : opp ∈ (oppQueue book side).entries :=
    (peekEntry_spec _ _ hpk).1
  have hstep : ∃ q', (order_matching book results opp.order order_id oa pa t
      side qty now).book = setOpp book side q' ∧
      PriceSub q' (oppQueue book side) := by
    by_cases h1 : qty < opp.order.qty
    · rw [order_matching_case_lt book results opp.order order_id oa pa t side
        qty now h1]
      exact ⟨_, rfl, priceSub_modify _ _ ⟨opp, hoppmem, rfl⟩⟩
    · by_cases h2 : opp.order.qty < qty
      · rw [order_matching_case_gt book results opp.order order_id oa pa t
          side qty now h2]
        exact ⟨_, rfl, priceSub_popQ _⟩
      · rw [order_matching_case_eq book results opp.order order_id oa pa t
          side qty now h1 h2]
        exact ⟨_, rfl, priceSub_popQ _⟩
  obtain ⟨q', hq', hsub⟩ := hstep
  rw [hq']
  rcases setOpp_as_mk book side q' with ⟨hmk, hside⟩ | ⟨hmk, hside⟩
  · rw [hmk]
    subst hside
    exact spreadInv_priceSub book _ _ hinv (priceSub_refl _) hsub
  · rw [hmk]
    subst hside
    exact spreadInv_priceSub book _ _ hinv hsub (priceSub_refl _)

lemma sidesOK_setOpp (b : Orderbook) (side : OrderSide) (q : OrderQueue)
    (h : SidesOK b) (hq : q.side = (oppQueue b side).side) :
    SidesOK (setOpp b side q) := by
  cases side
  · exact ⟨h.1, hq.trans h.2⟩
  · exact ⟨hq.trans h.1, h.2⟩

lemma sidesOK_setOwn (b : Orderbook) (side : OrderSide) (q : OrderQueue)
    (h : SidesOK b) (hq : q.side = (ownQueue b side).side) :
    SidesOK (setOwn b side q) := by
  cases side
  · exact ⟨hq.trans h.1, h.2⟩
  · exact ⟨h.1, hq.trans h.2⟩

lemma order_matching_sidesOK (book : Orderbook)
    (results : OrderProcessingResult) (O : Order) (order_id oa pa : Nat)
    (t : OrderType) (side : OrderSide) (qty : Rat) (now : Nat)
    (hs : SidesOK book) :
    SidesOK (order_matching book results O order_id oa pa t side qty
      now).book := by
  by_cases h1 : qty < O.qty
  · rw [order_matching_case_lt book results O order_id oa pa t side qty now h1]
    exact sidesOK_setOpp book side _ hs (modify_side _ _)
  · by_cases h2 : O.qty < qty
    · rw [order_matching_case_gt book results O order_id oa pa t side qty now h2]
      exact sidesOK_setOpp book side _ hs (popQ_side _)
    · rw [order_matching_case_eq book results O order_id oa pa t side qty now h1 h2]
      exact sidesOK_setOpp book side _ hs (popQ_side _)

/-- The best ask price bounds every ask price from below; symmetrically
for bids. -/
lemma peek_best_price (q : OrderQueue) (opp : QEntry)
    (h : q.peekEntry = some opp) :
    (q.side = OrderSide.Ask →
      ∀ e ∈ q.entries, opp.order.price ≤ e.order.price) ∧
    (q.side = OrderSide.Bid →
      ∀ e ∈ q.entries, e.order.price ≤ opp.order.price) := by
  obtain ⟨_, hbest⟩ := peekEntry_spec q opp h
  constructor
  · intro hside e he
    have hnb := hbest e he
    rw [hside] at hnb
    unfold BetterP at hnb
    exact not_lt.mp (not_or.mp hnb).1
  · intro hside e he
    have hnb := hbest e he
    rw [hside] at hnb
    unfold BetterP at hnb
    exact not_lt.mp (not_or.mp hnb).1

/-- Storing a non-crossing (or unopposed) limit order preserves the spread
invariant. -/
lemma store_spread (book : Orderbook) (results : OrderProcessingResult)
    (order_id oa pa : Nat) (side : OrderSide) (price qty : Rat) (ts : Nat)
    (hs : SidesOK book) (hinv : SpreadInv book)
    (hcross : (oppQueue book side).peekEntry = none ∨
      (∃ opp, (oppQueue book side).peekEntry = some opp ∧
        limitOverlap side opp.order.price price = false)) :
    SpreadInv (store_new_limit_order book results order_id oa pa side price
      qty ts).1 := by
  cases hl : (ownQueue book side).isLive order_id with
  | true =>
    rw [store_new_limit_order_dup book results order_id oa pa side price qty
      ts hl]
    exact hinv
  | false =>
    rw [store_new_limit_order_fresh book results order_id oa pa side price qty
      ts hl]
    have hopp_bound : ∀ ea ∈ (oppQueue book side).entries,
        limitOverlap side ea.order.price price = false ∨
        ((side = OrderSide.Bid → price < ea.order.price) ∧
         (side = OrderSide.Ask → ea.order.price < price)) := by
      rcases hcross with hempty | ⟨opp, hpk, hov⟩
      · intro ea hea
        rw [(peekEntry_eq_none_iff _).mp hempty] at hea
        cases hea
      · intro ea hea
        right
        constructor
        · intro hside
          subst hside
          have hle := (peek_best_price _ _ hpk).1 hs.2 ea hea
          unfold limitOverlap at hov
          simp at hov
          linarith
        · intro hside
          subst hside
          have hle := (peek_best_price _ _ hpk).2 hs.1 ea hea
          unfold limitOverlap at hov
          simp at hov
          linarith
    cases side with
    | Bid =>
      intro eb heb ea hea
      rcases List.mem_append.mp heb with hm | hm
      · exact hinv eb hm ea hea
      · simp at hm
        rw [hm]
        rcases hopp_bound ea hea with hov | ⟨hb, _⟩
        · unfold limitOverlap at hov
          simp at hov
          exact hov
        · exact hb rfl
    | Ask =>
      intro eb heb ea hea
      rcases List.mem_append.mp hea with hm | hm
      · exact hinv eb heb ea hm
      · simp at hm
        rw [hm]
        rcases hopp_bound eb heb with hov | ⟨_, ha⟩
        · unfold limitOverlap at hov
          simp at hov
          exact hov
        · exact ha rfl

lemma store_sidesOK (book : Orderbook) (results : OrderProcessingResult)
    (order_id oa pa : Nat) (side : OrderSide) (price qty : Rat) (ts : Nat)
    (hs : SidesOK book) :
    SidesOK (store_new_limit_order book results order_id oa pa side price qty
      ts).1 := by
  simp only [store_new_limit_order]
  split
  · exact sidesOK_setOwn book side _ hs (insert_side _ _ _)
  · exact sidesOK_setOwn book side _ hs (insert_side _ _ _)

lemma setOwn_as_mk (b : Orderbook) (side : OrderSide) (q : OrderQueue) :
    (setOwn b side q =
      ⟨b.order_asset, b.price_asset, q, b.ask_queue⟩ ∧ side = OrderSide.Bid) ∨
    (setOwn b side q =
      ⟨b.order_asset, b.price_asset, b.bid_queue, q⟩ ∧ side = OrderSide.Ask) := by
  cases side
  · exact Or.inl ⟨rfl, rfl⟩
  · exact Or.inr ⟨rfl, rfl⟩

lemma cancel_sub (q : OrderQueue) (id : Nat) :
    (q.cancel id).2.entries ⊆ q.entries := by
  unfold OrderQueue.cancel
  split
  · exact fun a ha => List.mem_of_mem_filter ha
  · exact fun a ha => ha

lemma process_market_order_spread (book : Orderbook)
    (results : OrderProcessingResult) (order_id oa pa : Nat) (side : OrderSide)
    (qty : Rat) (now : Nat) :
    SidesOK book → SpreadInv book →
    SidesOK (process_market_order book results order_id oa pa side qty now).1 ∧
    SpreadInv (process_market_order book results order_id oa pa side qty now).1 := by
  induction book, results, order_id, oa, pa, side, qty, now
    using process_market_order.induct with
  | case1 book results order_id oa pa side qty now opp hpk step hc =>
    have hstep : step = order_matching book results opp.order order_id oa pa
      OrderType.Market side qty now := rfl
    rw [hstep] at hc
    intro hs hinv
    rw [process_market_order_complete book results order_id oa pa side qty now
      opp hpk hc]
    exact ⟨order_matching_sidesOK book results opp.order order_id oa pa
        OrderType.Market side qty now hs,
      order_matching_spread book results opp order_id oa pa OrderType.Market
        side qty now hpk hinv⟩
  | case2 book results order_id oa pa side qty now opp hpk step hc ih =>
    have hstep : step = order_matching book results opp.order order_id oa pa
      OrderType.Market side qty now := rfl
    rw [hstep] at hc ih
    intro hs hinv
    have hfalse : (order_matching book results opp.order order_id oa pa
        OrderType.Market side qty now).complete = false := by
      simpa using hc
    rw [process_market_order_incomplete book results order_id oa pa side qty
      now opp hpk hfalse]
    exact ih (order_matching_sidesOK book results opp.order order_id oa pa
        OrderType.Market side qty now hs)
      (order_matching_spread book results opp order_id oa pa OrderType.Market
        side qty now hpk hinv)
  | case3 book results order_id oa pa side qty now hpk =>
    intro hs hinv
    rw [process_market_order_none book results order_id oa pa side qty now hpk]
    exact ⟨hs, hinv⟩

lemma process_limit_order_spread (book : Orderbook)
    (results : OrderProcessingResult) (order_id oa pa : Nat) (side : OrderSide)
    (price qty : Rat) (ts now : Nat) :
    SidesOK book → SpreadInv book →
    SidesOK (process_limit_order book results order_id oa pa side price qty ts
      now).1 ∧
    SpreadInv (process_limit_order book results order_id oa pa side price qty
      ts now).1 := by
  induction book, results, order_id, oa, pa, side, price, qty, ts, now
    using process_limit_order.induct with
  | case1 book results order_id oa pa side price qty ts now opp hpk hov step hc =>
    have hstep : step = order_matching book results opp.order order_id oa pa
      OrderType.Limit side qty now := rfl
    rw [hstep] at hc
    intro hs hinv
    rw [process_limit_order_overlap_complete book results order_id oa pa side
      price qty ts now opp hpk hov hc]
    exact ⟨order_matching_sidesOK book results opp.order order_id oa pa
        OrderType.Limit side qty now hs,
      order_matching_spread book results opp order_id oa pa OrderType.Limit
        side qty now hpk hinv⟩
  | case2 book results order_id oa pa side price qty ts now opp hpk hov step hc ih =>
    have hstep : step = order_matching book results opp.order order_id oa pa
      OrderType.Limit side qty now := rfl
    rw [hstep] at hc ih
    intro hs hinv
    have hfalse : (order_matching book results opp.order order_id oa pa
        OrderType.Limit side qty now).complete = false := by
      simpa using hc
    rw [process_limit_order_overlap_incomplete book results order_id oa pa
      side price qty ts now opp hpk hov hfalse]
    exact ih (order_matching_sidesOK book results opp.order order_id oa pa
        OrderType.Limit side qty now hs)
      (order_matching_spread book results opp order_id oa pa OrderType.Limit
        side qty now hpk hinv)
  | case3 book results order_id oa pa side price qty ts now opp hpk hov =>
    intro hs hinv
    rw [process_limit_order_no_overlap book results order_id oa pa side price
      qty ts now opp hpk (by simpa using hov)]
    exact ⟨store_sidesOK book results order_id oa pa side price qty ts hs,
      store_spread book results order_id oa pa side price qty ts hs hinv
        (Or.inr ⟨opp, hpk, by simpa using hov⟩)⟩
  | case4 book results order_id oa pa side price qty ts now hpk =>
    intro hs hinv
    rw [process_limit_order_none book results order_id oa pa side price qty ts
      now hpk]
    exact ⟨store_sidesOK book results order_id oa pa side price qty ts hs,
      store_spread book results order_id oa pa side price qty ts hs hinv
        (Or.inl hpk)⟩

lemma peek_mem (q : OrderQueue) (o : Order) (h : q.peek = some o) :
    ∃ e ∈ q.entries, e.order = o := by
  unfold OrderQueue.peek at h
  rcases hpe : q.peekEntry with _ | e
  · rw [hpe] at h
    cases h
  · rw [hpe] at h
    simp at h
    exact ⟨e, (peekEntry_spec q e hpe).1, h⟩

/-- C4 counterexample: amending a resting bid to a price above the best ask
leaves a crossed book behind — `process_order` of an `AmendOrder` re-prices
the order without re-matching.  The starting book (a bid at 10 and an ask
at 12, both quantity 1) satisfies the invariant before the call. -/
theorem claim_C4_counterexample :
    SidesOK ⟨1, 2, ⟨OrderSide.Bid, [⟨⟨1, 1, 2, OrderSide.Bid, 10, 1⟩, 0⟩]⟩,
        ⟨OrderSide.Ask, [⟨⟨2, 1, 2, OrderSide.Ask, 12, 1⟩, 1⟩]⟩⟩ ∧
    SpreadInv ⟨1, 2, ⟨OrderSide.Bid, [⟨⟨1, 1, 2, OrderSide.Bid, 10, 1⟩, 0⟩]⟩,
        ⟨OrderSide.Ask, [⟨⟨2, 1, 2, OrderSide.Ask, 12, 1⟩, 1⟩]⟩⟩ ∧
    (process_order
        ⟨1, 2, ⟨OrderSide.Bid, [⟨⟨1, 1, 2, OrderSide.Bid, 10, 1⟩, 0⟩]⟩,
          ⟨OrderSide.Ask, [⟨⟨2, 1, 2, OrderSide.Ask, 12, 1⟩, 1⟩]⟩⟩
        (OrderRequest.AmendOrder 1 OrderSide.Bid 15 1 2) 3).1.bid_queue.peek =
      some ⟨1, 1, 2, OrderSide.Bid, 15, 1⟩ ∧
    (process_order
        ⟨1, 2, ⟨OrderSide.Bid, [⟨⟨1, 1, 2, OrderSide.Bid, 10, 1⟩, 0⟩]⟩,
          ⟨OrderSide.Ask, [⟨⟨2, 1, 2, OrderSide.Ask, 12, 1⟩, 1⟩]⟩⟩
        (OrderRequest.AmendOrder 1 OrderSide.Bid 15 1 2) 3).1.ask_queue.peek =
      some ⟨2, 1, 2, OrderSide.Ask, 12, 1⟩ ∧
    ¬ ((15 : Rat) < 12) := by
  refine ⟨⟨rfl, rfl⟩, ?_, rfl, rfl, by norm_num⟩
  intro eb heb ea hea
  simp at heb hea
  rw [heb, hea]
  norm_num

/-- C4 (amended): for every intent that is not an AmendOrder, if the book
satisfies the monotone-spread invariant (every live bid price strictly
below every live ask price, with the comparator sides as constructed)
before the `process_order` call, the invariant holds after it; whenever
both queues are then non-empty, best bid < best ask.  An AmendOrder can
violate the invariant, since it re-prices without re-matching. -/
theorem claim_C4_monotone_spread (book : Orderbook) (order : OrderRequest)
    (now : Nat) (hs : SidesOK book) (hinv : SpreadInv book)
    (hna : ∀ id side price qty ts,
      order ≠ OrderRequest.AmendOrder id side price qty ts) :
    SpreadInv (process_order book order now).1 ∧
    (∀ ob oa, (process_order book order now).1.bid_queue.peek = some ob →
      (process_order book order now).1.ask_queue.peek = some oa →
      ob.price < oa.price) := by
  have main : SpreadInv (process_order book order now).1 := by
    cases order with
    | NewMarketOrder order_id oa pa side qty ts =>
      unfold process_order
      rcases hval : book.validator.validate
          (OrderRequest.NewMarketOrder order_id oa pa side qty ts) with reason | u
      · simp only [hval]
        exact hinv
      · cases u
        simp only [hval]
        exact (process_market_order_spread book _ order_id oa pa side qty now
          hs hinv).2
    | NewLimitOrder order_id oa pa side price qty ts =>
      unfold process_order
      rcases hval : book.validator.validate
          (OrderRequest.NewLimitOrder order_id oa pa side price qty ts) with reason | u
      · simp only [hval]
        exact hinv
      · cases u
        simp only [hval]
        exact (process_limit_order_spread book _ order_id oa pa side price qty
          ts now hs hinv).2
    | AmendOrder id side price qty ts =>
      exact absurd rfl (hna id side price qty ts)
    | CancelOrder id side =>
      unfold process_order
      rcases hval : book.validator.validate
          (OrderRequest.CancelOrder id side) with reason | u
      · simp only [hval]
        exact hinv
      · cases u
        simp only [hval]
        simp only [process_order_cancel]
        have hsub : PriceSub ((ownQueue book side).cancel id).2
            (ownQueue book side) :=
          fun e' he' => ⟨e', cancel_sub _ _ he', rfl⟩
        have hspread : SpreadInv (setOwn book side
            ((ownQueue book side).cancel id).2) := by
          rcases setOwn_as_mk book side ((ownQueue book side).cancel id).2
            with ⟨hmk, hside⟩ | ⟨hmk, hside⟩
          · rw [hmk]
            subst hside
            exact spreadInv_priceSub book _ _ hinv hsub (priceSub_refl _)
          · rw [hmk]
            subst hside
            exact spreadInv_priceSub book _ _ hinv (priceSub_refl _) hsub
        split
        · exact hspread
        · exact hspread
  refine ⟨main, ?_⟩
  intro ob oa hb ha
  obtain ⟨eb, hebm, hebo⟩ := peek_mem _ _ hb
  obtain ⟨ea, heam, heao⟩ := peek_mem _ _ ha
  rw [← hebo, ← heao]
  exact main eb hebm ea heam

/-- C4 witness: a non-crossing limit bid on a book satisfying the
invariant. -/
theorem claim_C4_witness :
    SpreadInv (process_order (Orderbook.new 1 2)
      (OrderRequest.NewLimitOrder 7 1 2 OrderSide.Bid 10 5 0) 3).1 ∧
    (∀ ob oa, (process_order (Orderbook.new 1 2)
        (OrderRequest.NewLimitOrder 7 1 2 OrderSide.Bid 10 5 0) 3).1.bid_queue.peek
          = some ob →
      (process_order (Orderbook.new 1 2)
        (OrderRequest.NewLimitOrder 7 1 2 OrderSide.Bid 10 5 0) 3).1.ask_queue.peek
          = some oa →
      ob.price < oa.price) :=
  claim_C4_monotone_spread (Orderbook.new 1 2)
    (OrderRequest.NewLimitOrder 7 1 2 OrderSide.Bid 10 5 0) 3
    ⟨rfl, rfl⟩ (fun eb heb => absurd heb (List.not_mem_nil eb))
    (fun _ _ _ _ _ h => OrderRequest.noConfusion h)

/-! ## Limit-order storage behaviour (towards C5) -/

/-- Behaviour of the limit-order driver for a fresh id: any entry that ends
up resting under the incoming id carries the original limit price and the
original timestamp; accumulated events persist; with no overlap (or an
empty opposite side) the order is stored on its own side with no further
events; with an overlap at least one fill event is emitted. -/
lemma process_limit_order_c5 (book : Orderbook)
    (results : OrderProcessingResult) (order_id oa pa : Nat) (side : OrderSide)
    (price qty : Rat) (ts now : Nat) :
    (∀ e ∈ (ownQueue book side).entries, e.order.order_id ≠ order_id) →
    (∀ e ∈ (ownQueue (process_limit_order book results order_id oa pa side
        price qty ts now).1 side).entries,
      e.order.order_id = order_id → e.order.price = price ∧ e.ts = ts) ∧
    (∀ r ∈ results,
      r ∈ (process_limit_order book results order_id oa pa side price qty ts
        now).2) ∧
    (((oppQueue book side).peekEntry = none ∨
      (∃ opp, (oppQueue book side).peekEntry = some opp ∧
        limitOverlap side opp.order.price price = false)) →
      process_limit_order book results order_id oa pa side price qty ts now =
        (setOwn book side ⟨(ownQueue book side).side,
          (ownQueue book side).entries ++
            [⟨⟨order_id, oa, pa, side, price, qty⟩, ts⟩]⟩,
         results)) ∧
    ((∃ opp, (oppQueue book side).peekEntry = some opp ∧
        limitOverlap side opp.order.price price = true) →
      ∃ r ∈ (process_limit_order book results order_id oa pa side price qty ts
        now).2, isFillEvent r = true) := by
  induction book, results, order_id, oa, pa, side, price, qty, ts, now
    using process_limit_order.induct with
  | case1 book results order_id oa pa side price qty ts now opp hpk hov step hc =>
    have hstep : step = order_matching book results opp.order order_id oa pa
      OrderType.Limit side qty now := rfl
    rw [hstep] at hc
    intro hfresh
    rw [process_limit_order_overlap_complete book results order_id oa pa side
      price qty ts now opp hpk hov hc]
    have hres_sub : ∃ a b, (order_matching book results opp.order order_id oa
        pa OrderType.Limit side qty now).results =
        results ++ [Except.ok a, Except.ok b] ∧
        isFillEvent (Except.ok a) = true ∧ isFillEvent (Except.ok b) = true := by
      by_cases h1 : qty < opp.order.qty
      · rw [order_matching_case_lt book results opp.order order_id oa pa
          OrderType.Limit side qty now h1]
        exact ⟨_, _, rfl, rfl, rfl⟩
      · by_cases h2 : opp.order.qty < qty
        · rw [order_matching_case_gt book results opp.order order_id oa pa
            OrderType.Limit side qty now h2]
          exact ⟨_, _, rfl, rfl, rfl⟩
        · rw [order_matching_case_eq book results opp.order order_id oa pa
            OrderType.Limit side qty now h1 h2]
          exact ⟨_, _, rfl, rfl, rfl⟩
    obtain ⟨a, b, hres, hfa, _⟩ := hres_sub
    refine ⟨?_, ?_, ?_, ?_⟩
    · intro e he hid
      rw [order_matching_own] at he
      exact absurd hid (hfresh e he)
    · intro r hr
      rw [hres]
      exact List.mem_append.mpr (Or.inl hr)
    · rintro (hempty | ⟨opp', hpk', hov'⟩)
      · simp [hempty] at hpk
      · rw [hpk] at hpk'
        injection hpk' with he'
        subst he'
        rw [hov] at hov'
        cases hov'
    · intro _
      refine ⟨Except.ok a, ?_, hfa⟩
      rw [hres]
      exact List.mem_append.mpr (Or.inr (by simp))
  | case2 book results order_id oa pa side price qty ts now opp hpk hov step hc ih =>
    have hstep : step = order_matching book results opp.order order_id oa pa
      OrderType.Limit side qty now := rfl
    rw [hstep] at hc ih
    intro hfresh
    have hfalse : (order_matching book results opp.order order_id oa pa
        OrderType.Limit side qty now).complete = false := by
      simpa using hc
    have hgt : opp.order.qty < qty :=
      (order_matching_complete_false_iff book results opp.order order_id oa pa
        OrderType.Limit side qty now).mp hfalse
    rw [process_limit_order_overlap_incomplete book results order_id oa pa
      side price qty ts now opp hpk hov hfalse]
    have hres : (order_matching book results opp.order order_id oa pa
        OrderType.Limit side qty now).results =
        results ++ [Except.ok (Success.PartiallyFilled order_id side
          OrderType.Limit opp.order.price opp.order.qty now),
          Except.ok (Success.Filled opp.order.order_id opp.order.side
            OrderType.Limit opp.order.price opp.order.qty now)] := by
      rw [order_matching_case_gt book results opp.order order_id oa pa
        OrderType.Limit side qty now hgt]
    obtain ⟨ih1, ih2, _, _⟩ := ih (by
      rw [order_matching_own]
      exact hfresh)
    refine ⟨ih1, ?_, ?_, ?_⟩
    · intro r hr
      refine ih2 r ?_
      rw [hres]
      exact List.mem_append.mpr (Or.inl hr)
    · rintro (hempty | ⟨opp', hpk', hov'⟩)
      · simp [hempty] at hpk
      · rw [hpk] at hpk'
        injection hpk' with he'
        subst he'
        rw [hov] at hov'
        cases hov'
    · intro _
      refine ⟨Except.ok (Success.PartiallyFilled order_id side OrderType.Limit
        opp.order.price opp.order.qty now), ?_, rfl⟩
      refine ih2 _ ?_
      rw [hres]
      exact List.mem_append.mpr (Or.inr (by simp))
  | case3 book results order_id oa pa side price qty ts now opp hpk hov =>
    intro hfresh
    have hl : (ownQueue book side).isLive order_id = false := by
      cases hl : (ownQueue book side).isLive order_id with
      | true =>
        obtain ⟨e, he, hid⟩ := (isLive_iff _ _).mp hl
        exact absurd hid (hfresh e he)
      | false => rfl
    rw [process_limit_order_no_overlap book results order_id oa pa side price
      qty ts now opp hpk (by simpa using hov)]
    rw [store_new_limit_order_fresh book results order_id oa pa side price qty
      ts hl]
    refine ⟨?_, fun r hr => hr, fun _ => rfl, ?_⟩
    · intro e he hid
      rw [setOwn_own] at he
      rcases List.mem_append.mp he with hm | hm
      · exact absurd hid (hfresh e hm)
      · simp at hm
        rw [hm]
        exact ⟨rfl, rfl⟩
    · rintro ⟨opp', hpk', hov'⟩
      rw [hpk] at hpk'
      injection hpk' with he'
      subst he'
      simp at hov
      rw [hov] at hov'
      cases hov'
  | case4 book results order_id oa pa side price qty ts now hpk =>
    intro hfresh
    have hl : (ownQueue book side).isLive order_id = false := by
      cases hl : (ownQueue book side).isLive order_id with
      | true =>
        obtain ⟨e, he, hid⟩ := (isLive_iff _ _).mp hl
        exact absurd hid (hfresh e he)
      | false => rfl
    rw [process_limit_order_none book results order_id oa pa side price qty ts
      now hpk]
    rw [store_new_limit_order_fresh book results order_id oa pa side price qty
      ts hl]
    refine ⟨?_, fun r hr => hr, fun _ => rfl, ?_⟩
    · intro e he hid
      rw [setOwn_own] at he
      rcases List.mem_append.mp he with hm | hm
      · exact absurd hid (hfresh e hm)
      · simp at hm
        rw [hm]
        exact ⟨rfl, rfl⟩
    · rintro ⟨opp', hpk', _⟩
      rw [hpk] at hpk'
      cases hpk'

/-- Residual-resting dichotomy of the limit-order driver: with a positive
quantity and an id fresh on both sides, either the order trades exactly its
full quantity and the own queue is untouched, or it trades strictly less
and the untraded remainder rests as exactly one appended own-side entry
carrying the original price, the original timestamp and quantity
qty − traded. -/
lemma process_limit_order_residual (book : Orderbook)
    (results : OrderProcessingResult) (order_id oa pa : Nat) (side : OrderSide)
    (price qty : Rat) (ts now : Nat) :
    0 < qty →
    (∀ e ∈ (ownQueue book side).entries, e.order.order_id ≠ order_id) →
    (∀ e ∈ (oppQueue book side).entries, e.order.order_id ≠ order_id) →
    (tradedQty order_id (process_limit_order book results order_id oa pa side
        price qty ts now).2 = tradedQty order_id results + qty ∧
     ownQueue (process_limit_order book results order_id oa pa side price qty
        ts now).1 side = ownQueue book side) ∨
    (tradedQty order_id (process_limit_order book results order_id oa pa side
        price qty ts now).2 - tradedQty order_id results < qty ∧
     ownQueue (process_limit_order book results order_id oa pa side price qty
        ts now).1 side =
       ⟨(ownQueue book side).side,
        (ownQueue book side).entries ++
          [⟨⟨order_id, oa, pa, side, price,
             qty - (tradedQty order_id (process_limit_order book results
               order_id oa pa side price qty ts now).2
               - tradedQty order_id results)⟩, ts⟩]⟩) := by
  induction book, results, order_id, oa, pa, side, price, qty, ts, now
    using process_limit_order.induct with
  | case1 book results order_id oa pa side price qty ts now opp hpk hov step hc =>
    have hstep : step = order_matching book results opp.order order_id oa pa
      OrderType.Limit side qty now := rfl
    rw [hstep] at hc
    intro hq hfr_own hfr_opp
    rw [process_limit_order_overlap_complete book results order_id oa pa side
      price qty ts now opp hpk hov hc]
    have hoppid : opp.order.order_id ≠ order_id :=
      hfr_opp opp (peekEntry_spec _ _ hpk).1
    have hngt : ¬ opp.order.qty < qty := by
      intro hgt
      rw [(order_matching_complete_false_iff book results opp.order order_id
        oa pa OrderType.Limit side qty now).mpr hgt] at hc
      cases hc
    left
    refine ⟨?_, order_matching_own book results opp.order order_id oa pa
      OrderType.Limit side qty now⟩
    by_cases h1 : qty < opp.order.qty
    · rw [order_matching_case_lt book results opp.order order_id oa pa
        OrderType.Limit side qty now h1]
      exact tradedQty_step_lt results order_id opp.order.order_id side
        opp.order.side OrderType.Limit opp.order.price qty now hoppid
    · rw [order_matching_case_eq book results opp.order order_id oa pa
        OrderType.Limit side qty now h1 hngt]
      exact tradedQty_step_eq results order_id opp.order.order_id side
        opp.order.side OrderType.Limit opp.order.price qty now hoppid
  | case2 book results order_id oa pa side price qty ts now opp hpk hov step hc ih =>
    have hstep : step = order_matching book results opp.order order_id oa pa
      OrderType.Limit side qty now := rfl
    rw [hstep] at hc ih
    intro hq hfr_own hfr_opp
    have hfalse : (order_matching book results opp.order order_id oa pa
        OrderType.Limit side qty now).complete = false := by
      simpa using hc
    have hgt : opp.order.qty < qty :=
      (order_matching_complete_false_iff book results opp.order order_id oa pa
        OrderType.Limit side qty now).mp hfalse
    have hoppid : opp.order.order_id ≠ order_id :=
      hfr_opp opp (peekEntry_spec _ _ hpk).1
    rw [process_limit_order_overlap_incomplete book results order_id oa pa
      side price qty ts now opp hpk hov hfalse]
    have htr : tradedQty order_id (order_matching book results opp.order
        order_id oa pa OrderType.Limit side qty now).results =
        tradedQty order_id results + opp.order.qty := by
      rw [order_matching_case_gt book results opp.order order_id oa pa
        OrderType.Limit side qty now hgt]
      exact tradedQty_step_gt results order_id opp.order.order_id side
        opp.order.side OrderType.Limit opp.order.price opp.order.qty now hoppid
    have hown := order_matching_own book results opp.order order_id oa pa
      OrderType.Limit side qty now
    rcases ih (by linarith)
        (by rw [hown]; exact hfr_own)
        (order_matching_opp_fresh book results opp order_id oa pa
          OrderType.Limit side qty now order_id hfr_opp) with
      ⟨ihl1, ihl2⟩ | ⟨ihr1, ihr2⟩
    · left
      constructor
      · rw [ihl1, htr]
        ring
      · rw [ihl2, hown]
    · right
      constructor
      · rw [htr] at ihr1
        linarith
      · rw [hown] at ihr2
        rw [ihr2]
        have hqeq : qty - opp.order.qty -
            (tradedQty order_id (process_limit_order
              (order_matching book results opp.order order_id oa pa
                OrderType.Limit side qty now).book
              (order_matching book results opp.order order_id oa pa
                OrderType.Limit side qty now).results
              order_id oa pa side price (qty - opp.order.qty) ts now).2
             - tradedQty order_id (order_matching book results opp.order
                order_id oa pa OrderType.Limit side qty now).results) =
            qty - (tradedQty order_id (process_limit_order
              (order_matching book results opp.order order_id oa pa
                OrderType.Limit side qty now).book
              (order_matching book results opp.order order_id oa pa
                OrderType.Limit side qty now).results
              order_id oa pa side price (qty - opp.order.qty) ts now).2
             - tradedQty order_id results) := by
          rw [htr]
          ring
        rw [hqeq]
  | case3 book results order_id oa pa side price qty ts now opp hpk hov =>
    intro hq hfr_own hfr_opp
    have hl : (ownQueue book side).isLive order_id = false := by
      cases hl : (ownQueue book side).isLive order_id with
      | true =>
        obtain ⟨e, he, hid⟩ := (isLive_iff _ _).mp hl
        exact absurd hid (hfr_own e he)
      | false => rfl
    rw [process_limit_order_no_overlap book results order_id oa pa side price
      qty ts now opp hpk (by simpa using hov)]
    rw [store_new_limit_order_fresh book results order_id oa pa side price qty
      ts hl]
    right
    constructor
    · show tradedQty order_id results - tradedQty order_id results < qty
      simpa using hq
    · rw [setOwn_own]
      show _ = OrderQueue.mk _ ((ownQueue book side).entries ++
        [⟨⟨order_id, oa, pa, side, price,
           qty - (tradedQty order_id results - tradedQty order_id results)⟩, ts⟩])
      simp
  | case4 book results order_id oa pa side price qty ts now hpk =>
    intro hq hfr_own hfr_opp
    have hl : (ownQueue book side).isLive order_id = false := by
      cases hl : (ownQueue book side).isLive order_id with
      | true =>
        obtain ⟨e, he, hid⟩ := (isLive_iff _ _).mp hl
        exact absurd hid (hfr_own e he)
      | false => rfl
    rw [process_limit_order_none book results order_id oa pa side price qty ts
      now hpk]
    rw [store_new_limit_order_fresh book results order_id oa pa side price qty
      ts hl]
    right
    constructor
    · show tradedQty order_id results - tradedQty order_id results < qty
      simpa using hq
    · rw [setOwn_own]
      show _ = OrderQueue.mk _ ((ownQueue book side).entries ++
        [⟨⟨order_id, oa, pa, side, price,
           qty - (tradedQty order_id results - tradedQty order_id results)⟩, ts⟩])
      simp

/-- C5: a valid NewLimitOrder with a fresh id trades exactly when its price
overlaps the opposite best (for a bid, price ≥ opposite best; for an ask,
price ≤ opposite best; equality crosses — `limitOverlap` is the code's
test); with no overlap or an empty opposite queue the order is stored on
its own side with the full quantity, the original price and the original
timestamp, and the only event is Accepted; any residual that rests under
the intent's id after matching sits at the original limit price and
original timestamp; and (with the id also fresh on the opposite side)
either the order trades exactly its full quantity with the own queue
untouched, or — in particular when the opposite side becomes empty
mid-recursion — the untraded residual is stored on the own side as exactly
one appended entry with the original price, the original timestamp and
quantity qty minus the traded quantity. -/
theorem claim_C5_limit_overlap (book : Orderbook) (order_id oa pa : Nat)
    (side : OrderSide) (price qty : Rat) (ts now : Nat)
    (hoa : book.order_asset = oa) (hpa : book.price_asset = pa)
    (hp : 0 < price) (hq : 0 < qty)
    (hfresh : ∀ e ∈ (ownQueue book side).entries,
      e.order.order_id ≠ order_id) :
    ((∃ r ∈ (process_order book
        (OrderRequest.NewLimitOrder order_id oa pa side price qty ts) now).2,
        isFillEvent r = true) ↔
      (∃ opp, (oppQueue book side).peekEntry = some opp ∧
        limitOverlap side opp.order.price price = true)) ∧
    (((oppQueue book side).peekEntry = none ∨
      (∃ opp, (oppQueue book side).peekEntry = some opp ∧
        limitOverlap side opp.order.price price = false)) →
      process_order book
          (OrderRequest.NewLimitOrder order_id oa pa side price qty ts) now =
        (setOwn book side ⟨(ownQueue book side).side,
          (ownQueue book side).entries ++
            [⟨⟨order_id, oa, pa, side, price, qty⟩, ts⟩]⟩,
         [Except.ok (Success.Accepted order_id oa OrderType.Limit pa
            (some price) qty side now)])) ∧
    (∀ e ∈ (ownQueue (process_order book
        (OrderRequest.NewLimitOrder order_id oa pa side price qty ts) now).1
        side).entries,
      e.order.order_id = order_id → e.order.price = price ∧ e.ts = ts) ∧
    ((∀ e ∈ (oppQueue book side).entries, e.order.order_id ≠ order_id) →
      ((tradedQty order_id (process_order book
          (OrderRequest.NewLimitOrder order_id oa pa side price qty ts) now).2
            = qty ∧
        ownQueue (process_order book
          (OrderRequest.NewLimitOrder order_id oa pa side price qty ts) now).1
          side = ownQueue book side) ∨
       (tradedQty order_id (process_order book
          (OrderRequest.NewLimitOrder order_id oa pa side price qty ts) now).2
            < qty ∧
        ownQueue (process_order book
          (OrderRequest.NewLimitOrder order_id oa pa side price qty ts) now).1
          side =
          ⟨(ownQueue book side).side,
           (ownQueue book side).entries ++
             [⟨⟨order_id, oa, pa, side, price,
                qty - tradedQty order_id (process_order book
                  (OrderRequest.NewLimitOrder order_id oa pa side price qty
                    ts) now).2⟩, ts⟩]⟩))) := by
  have hval : book.validator.validate
      (OrderRequest.NewLimitOrder order_id oa pa side price qty ts) =
      Except.ok () := by
    unfold Orderbook.validator OrderRequestValidator.validate
      OrderRequestValidator.validate_limit
    simp [hoa, hpa, not_le.mpr hp, not_le.mpr hq]
  have hred : process_order book
      (OrderRequest.NewLimitOrder order_id oa pa side price qty ts) now =
      process_limit_order book
        [Except.ok (Success.Accepted order_id oa OrderType.Limit pa
          (some price) qty side now)] order_id oa pa side price qty ts now := by
    unfold process_order
    simp only [hval]
  rw [hred]
  obtain ⟨h1, _, h3, h4⟩ := process_limit_order_c5 book
    [Except.ok (Success.Accepted order_id oa OrderType.Limit pa (some price)
      qty side now)] order_id oa pa side price qty ts now hfresh
  refine ⟨⟨?_, h4⟩, h3, h1, ?_⟩
  · intro hfill
    rcases hpk : (oppQueue book side).peekEntry with _ | opp
    · rw [h3 (Or.inl hpk)] at hfill
      obtain ⟨r, hr, hf⟩ := hfill
      simp at hr
      rw [hr] at hf
      simp [isFillEvent] at hf
    · by_cases hov : limitOverlap side opp.order.price price = true
      · exact ⟨opp, rfl, hov⟩
      · rw [h3 (Or.inr ⟨opp, hpk, by simpa using hov⟩)] at hfill
        obtain ⟨r, hr, hf⟩ := hfill
        simp at hr
        rw [hr] at hf
        simp [isFillEvent] at hf
  · intro hfr_opp
    have hres := process_limit_order_residual book
      [Except.ok (Success.Accepted order_id oa OrderType.Limit pa (some price)
        qty side now)] order_id oa pa side price qty ts now hq hfresh hfr_opp
    have htr0 : tradedQty order_id
        ([Except.ok (Success.Accepted order_id oa OrderType.Limit pa
          (some price) qty side now)] : OrderProcessingResult) = 0 := by
      simp [tradedQty]
    rw [htr0] at hres
    rcases hres with ⟨ha1, ha2⟩ | ⟨hb1, hb2⟩
    · exact Or.inl ⟨by rw [ha1]; ring, ha2⟩
    · refine Or.inr ⟨by simpa using hb1, ?_⟩
      simp only [sub_zero] at hb2
      exact hb2

/-- C5 witness: a limit bid on an empty book is stored on the bid side at
its own price and timestamp with only the Accepted event. -/
theorem claim_C5_witness :
    process_order (Orderbook.new 1 2)
        (OrderRequest.NewLimitOrder 7 1 2 OrderSide.Bid 10 5 4) 3 =
      (setOwn (Orderbook.new 1 2) OrderSide.Bid
        ⟨(ownQueue (Orderbook.new 1 2) OrderSide.Bid).side,
          (ownQueue (Orderbook.new 1 2) OrderSide.Bid).entries ++
            [⟨⟨7, 1, 2, OrderSide.Bid, 10, 5⟩, 4⟩]⟩,
       [Except.ok (Success.Accepted 7 1 OrderType.Limit 2 (some 10) 5
          OrderSide.Bid 3)]) :=
  (claim_C5_limit_overlap (Orderbook.new 1 2) 7 1 2 OrderSide.Bid 10 5 4 3
    rfl rfl (by norm_num) (by norm_num)
    (fun e he => absurd he (List.not_mem_nil e))).2.1 (Or.inl rfl)

/-- C10 witness: a concrete crossed pair of orders; the invariant holds of
the empty book and the resulting events are all positive. -/
theorem claim_C10_witness :
    PosInv (process_order (Orderbook.new 1 2)
      (OrderRequest.NewLimitOrder 4 1 2 OrderSide.Bid 10 3 0) 1).1 ∧
    EventsPos (process_order (Orderbook.new 1 2)
      (OrderRequest.NewLimitOrder 4 1 2 OrderSide.Bid 10 3 0) 1).2 :=
  claim_C10_positive_quantities (Orderbook.new 1 2)
    (OrderRequest.NewLimitOrder 4 1 2 OrderSide.Bid 10 3 0) 1
    ⟨fun e he => absurd he (List.not_mem_nil e),
     fun e he => absurd he (List.not_mem_nil e)⟩

end Paper
